import Mathlib

/-!
Verification of localslackirc against its specification.

Shallow embedding of the relevant parts of the source tree
(diff.py, msgparsing.py, slack.py, irc.py, control.py, slackclient/http.py)
as executable Lean definitions, together with theorems settling the
spec claims.  Strings are modelled as `List Char`; Python `float`
timestamps are modelled as `ℚ`.
-/

namespace Diff

/- ===== diff.py ===== -/

/-- Embedding of `_SEPARATORS = set(' .,:;\t\n()[]\x7b\x7d')` from diff.py. -/
def isSep (c : Char) : Bool :=
  c = ' ' || c = '.' || c = ',' || c = ':' || c = ';' || c = '\t' || c = '\n' ||
  c = '(' || c = ')' || c = '[' || c = ']' || c = '\x7b' || c = '\x7d'

/-- Loop body of `wordsplit`: walks the characters keeping a `bucket`;
on a separator the current bucket is yielded (possibly empty, e.g. when the
word starts with a separator) and the separator starts the next bucket;
the final bucket is yielded only if non-empty (`if bucket: yield bucket`). -/
def wsGo (bucket : List Char) : List Char → List (List Char)
  | [] => if bucket = [] then [] else [bucket]
  | c :: rest =>
      if isSep c then bucket :: wsGo [c] rest
      else wsGo (bucket ++ [c]) rest

/-- Embedding of `wordsplit` from diff.py. -/
def wordsplit (w : List Char) : List (List Char) := wsGo [] w

/-- Length of the longest common prefix.  This is the value of the
`for prefix in count()` loop in `seddiff`: it stops at the first index where
the lists differ, or where either list raises `IndexError`. -/
def commonPrefixLen [DecidableEq α] : List α → List α → Nat
  | a :: as, b :: bs => if a = b then commonPrefixLen as bs + 1 else 0
  | _, _ => 0

/-- Python `str.strip()` whitespace set. -/
def isPyWS (c : Char) : Bool :=
  c = ' ' || c = '\t' || c = '\n' || c = '\r' || c = '\x0b' || c = '\x0c'

/-- Embedding of Python `str.strip()` (no arguments): drop whitespace from
both ends. -/
def pyStrip (l : List Char) : List Char :=
  ((l.dropWhile isPyWS).reverse.dropWhile isPyWS).reverse

/-- Python slice `l[p:-q]` for `q > 0` and `l[p:]` for `q = 0`
(`px = None if postfix == 0 else -postfix` in `seddiff`): both reduce to
taking `length - q` elements and dropping the first `p`. -/
def pySlice (l : List (List Char)) (p q : Nat) : List (List Char) :=
  (l.take (l.length - q)).drop p

/-- The two joined-and-stripped sides of the interior diff computed by
`seddiff` between the common word prefix and the common word suffix:

```
l1 = list(wordsplit(a)); l2 = list(wordsplit(b))
prefix  = length of longest common prefix of l1, l2
postfix = length of longest common suffix of l1, l2
if prefix and postfix and len(l1) != len(l2):
    prefix -= 1; postfix -= 1
px = None if postfix == 0 else -postfix
(''.join(l1[prefix:px]).strip(), ''.join(l2[prefix:px]).strip())
```
-/
def sedInterior (a b : List Char) : List Char × List Char :=
  let l1 := wordsplit a
  let l2 := wordsplit b
  let pre0 := commonPrefixLen l1 l2
  let post0 := commonPrefixLen l1.reverse l2.reverse
  let dec : Bool := pre0 ≠ 0 && post0 ≠ 0 && l1.length ≠ l2.length
  let pre := if dec then pre0 - 1 else pre0
  let post := if dec then post0 - 1 else post0
  (pyStrip ((pySlice l1 pre post).flatMap id),
   pyStrip ((pySlice l2 pre post).flatMap id))

/-- Embedding of `seddiff` from diff.py:

```
if a == b: return ''
... (interior diff as in sedInterior) ...
return 's/%s/%s/' % (''.join(l1[prefix:px]).strip() or '$',
                     ''.join(l2[prefix:px]).strip())
```
(an empty string is falsy in Python, so `or '$'` substitutes the marker
exactly when the left side is empty). -/
def seddiff (a b : List Char) : List Char :=
  if a = b then []
  else
    let left := (sedInterior a b).1
    let right := (sedInterior a b).2
    's' :: '/' :: ((if left = [] then ['$'] else left) ++ '/' :: (right ++ ['/']))

end Diff

/- ===== Claims C6 and C7 ===== -/

/-- C7: `seddiff(a,a) == ""`, and `seddiff(a,b) == ""` implies `a == b`:
the empty result is produced exactly on equal inputs. -/
theorem C7_seddiff_empty_iff (a b : List Char) : Diff.seddiff a b = [] ↔ a = b := by
  constructor
  · intro h
    by_contra hne
    rw [Diff.seddiff, if_neg hne] at h
    simp at h
  · intro h
    rw [Diff.seddiff, if_pos h]

/-- C6 fails as stated: `X ≠ Y` does not always hold
(`seddiff(" x", "x ") = "s/x/x/"`, with `X = Y = "x"` although `" x" ≠ "x "`),
and a right-side-empty interior diff does not put the `$` marker on the left
(`seddiff("a b", "a") = "s/b//"`, right side empty yet `X = "b"`, not `"$"`). -/
theorem C6_counterexample :
    Diff.seddiff [' ', 'x'] ['x', ' '] = ['s', '/', 'x', '/', 'x', '/'] ∧
    [' ', 'x'] ≠ ['x', ' '] ∧
    Diff.seddiff ['a', ' ', 'b'] ['a'] = ['s', '/', 'b', '/', '/'] := by
  refine ⟨by decide, by decide, by decide⟩

/-- C6 amended: for every `a ≠ b`, `seddiff(a,b)` has the form `s/X/Y/`
where `Y` is the joined-and-stripped right side of the interior diff, `X` is
never empty, and `X` is the joined-and-stripped left side of the interior
diff, replaced by the marker `$` exactly when that left side is empty
(`X ≠ Y` is not guaranteed, and a right-side-empty interior does not produce
the marker). -/
theorem C6_seddiff_form (a b : List Char) (h : a ≠ b) :
    ∃ X Y : List Char,
      Diff.seddiff a b = 's' :: '/' :: (X ++ '/' :: (Y ++ ['/'])) ∧
      X ≠ [] ∧
      X = (if (Diff.sedInterior a b).1 = [] then ['$'] else (Diff.sedInterior a b).1) ∧
      Y = (Diff.sedInterior a b).2 := by
  refine ⟨_, _, ?_, ?_, rfl, rfl⟩
  · rw [Diff.seddiff, if_neg h]
  · split
    · simp
    · assumption

/-- Witness for C6 amended at a concrete input. -/
theorem C6_seddiff_form_witness :
    ∃ X Y : List Char,
      Diff.seddiff ['u'] ['v'] = 's' :: '/' :: (X ++ '/' :: (Y ++ ['/'])) ∧
      X ≠ [] ∧
      X = (if (Diff.sedInterior ['u'] ['v']).1 = [] then ['$']
           else (Diff.sedInterior ['u'] ['v']).1) ∧
      Y = (Diff.sedInterior ['u'] ['v']).2 :=
  C6_seddiff_form ['u'] ['v'] (by decide)

/- Small generic reduction lemmas for the `Except` monad, used when
evaluating the embedded fallible functions. -/

theorem except_bind_ok {α β ε : Type} (a : α) (f : α → Except ε β) :
    (Except.ok a >>= f) = f a := rfl

theorem except_bind_err {α β ε : Type} (e : ε) (f : α → Except ε β) :
    ((Except.error e : Except ε α) >>= f) = Except.error e := rfl

theorem except_pure_eq {α ε : Type} (a : α) :
    (pure a : Except ε α) = Except.ok a := rfl

namespace Msgparsing

/- ===== msgparsing.py ===== -/

/-- The ASCII character with code 96 (the tick used in the triple fence). -/
def tickChar : Char := Char.ofNat 96

/-- The triple fence delimiting preformatted blocks. -/
def fence : List Char := [tickChar, tickChar, tickChar]

/-- Python's `ValueError` occurrences reachable from `tokenize`:
`msg.index('>')` raising in `split_tokens`, and the explicit
`raise ValueError('Unexpected slack item in preformatted block ...')`
in `convertpre`. -/
inductive PyErr
  | indexNotFound
  | unexpectedItem (txt : List Char)
deriving DecidableEq, Repr

/-- Index of the first occurrence of character `c` (Python `str.index` /
`str.find` for a single-character needle). -/
def charIdx (c : Char) : List Char → Option Nat
  | [] => none
  | d :: rest => if d = c then some 0 else (charIdx c rest).map (· + 1)

theorem charIdx_lt_length {c : Char} :
    ∀ {l : List Char} {i : Nat}, charIdx c l = some i → i < l.length := by
  intro l
  induction l with
  | nil => intro i h; simp [charIdx] at h
  | cons d rest ih =>
      intro i h
      by_cases hd : d = c
      · simp [charIdx, hd] at h
        simp [List.length_cons]
        omega
      · simp [charIdx, hd] at h
        obtain ⟨j, hj, rfl⟩ := h
        have := ih hj
        simp
        omega

/-- Index of the first occurrence of the sublist `pat` (Python `str.index`
for a multi-character needle such as the triple fence). -/
def subIdx (pat : List Char) : List Char → Option Nat
  | [] => if pat.isEmpty then some 0 else none
  | c :: rest =>
      if pat.isPrefixOf (c :: rest) then some 0
      else (subIdx pat rest).map (· + 1)

theorem subIdx_some_ne_nil {pat l : List Char} {i : Nat} (hpat : ¬ pat.isEmpty)
    (h : subIdx pat l = some i) : l ≠ [] := by
  intro hnil
  subst hnil
  simp [subIdx, hpat] at h

/-- Embedding of `preblocks` from msgparsing.py: split on the triple fence
into alternating normal/preformatted segments; the boolean marks
preformatted segments; an unmatched trailing fence starts a preformatted
run extending to the end of the input. -/
def preblocks (pre : Bool) (msg : List Char) : List (List Char × Bool) :=
  match h : subIdx fence msg with
  | none => [(msg, pre)]
  | some p =>
      (msg.take p, pre) :: preblocks (!pre) (msg.drop (p + 3))
termination_by msg.length
decreasing_by
  have hne : msg ≠ [] := subIdx_some_ne_nil (by decide) h
  have hp : 0 < msg.length := List.length_pos.mpr hne
  rw [List.length_drop]
  omega

/-- The kind of a `SpecialItem`, read off its second character
(`self.txt[1]`); items coming from `split_tokens` always have at least two
characters (`'<'` then at least `'>'`). -/
inductive Itemkind
  | YELL
  | MENTION
  | CHANNEL
  | OTHER
deriving DecidableEq, Repr

/-- `SpecialItem.kind` from msgparsing.py. -/
def kindOf (txt : List Char) : Itemkind :=
  match txt.get? 1 with
  | some '!' => .YELL
  | some '@' => .MENTION
  | some '#' => .CHANNEL
  | _ => .OTHER

/-- `SpecialItem.val` from msgparsing.py:
`sep = txt.find('|')` (or `len(txt) - 1` when absent), then `txt[2:sep]`
for non-OTHER kinds and `txt[1:sep]` otherwise. -/
def valOf (txt : List Char) : List Char :=
  let sep := (charIdx '|' txt).getD (txt.length - 1)
  if kindOf txt ≠ .OTHER then (txt.take sep).drop 2
  else (txt.take sep).drop 1

/-- `SpecialItem.human` from msgparsing.py: `None` without a `|`,
otherwise `txt[sep+1:-1]`. -/
def humanOf (txt : List Char) : Option (List Char) :=
  match charIdx '|' txt with
  | none => none
  | some sep => some ((txt.take (txt.length - 1)).drop (sep + 1))

/-- A token yielded by `split_tokens`: a plain string or a `SpecialItem`. -/
inductive Tok
  | str (s : List Char)
  | special (txt : List Char)
deriving DecidableEq, Repr

/-- Embedding of `split_tokens` from msgparsing.py.  The loop searches for
`'<'`; text before it is yielded as a plain string; at a leading `'<'`,
`msg.index('>')` is called with no exception handler, so a segment holding
a `'<'` with no later `'>'` raises `ValueError`. -/
def split_tokens (msg : List Char) : Except PyErr (List Tok) :=
  match hb : charIdx '<' msg with
  | none => .ok (if msg.isEmpty then [] else [.str msg])
  | some b =>
      if hz : b = 0 then
        match charIdx '>' msg with
        | none => .error .indexNotFound
        | some e => do
            let rest ← split_tokens (msg.drop (e + 1))
            .ok (.special (msg.take (e + 1)) :: rest)
      else do
        let rest ← split_tokens (msg.drop b)
        .ok (.str (msg.take b) :: rest)
termination_by msg.length
decreasing_by
  · have := charIdx_lt_length hb
    simp
    omega
  · have := charIdx_lt_length hb
    simp
    omega

/-- One step of Python `str.replace(pat, rep)` semantics with a non-empty
needle `p :: ps`: scan left to right, replacing non-overlapping
occurrences. -/
def replaceAll (p : Char) (ps rep : List Char) : List Char → List Char
  | [] => []
  | c :: rest =>
      if (p :: ps).isPrefixOf (c :: rest) then
        rep ++ replaceAll p ps rep (rest.drop ps.length)
      else c :: replaceAll p ps rep rest
termination_by l => l.length
decreasing_by
  · simp
    omega
  · simp

/-- `SLACK_SUBSTITUTIONS` applied in order: `&amp;` → `&`, then `&gt;` →
`>`, then `&lt;` → `<`. -/
def applySubstitutions (l : List Char) : List Char :=
  replaceAll '&' ['l', 't', ';'] ['<']
    (replaceAll '&' ['g', 't', ';'] ['>']
      (replaceAll '&' ['a', 'm', 'p', ';'] ['&'] l))

/-- Embedding of `convertpre` from msgparsing.py: plain strings pass
through; any non-OTHER item (mention/channel/yell) raises `ValueError`;
links keep the human-readable label when non-empty (`elif t.human:` — an
empty label is falsy and falls through to the value); finally the three
HTML entities are decoded. -/
def convertpre (msg : List Char) : Except PyErr (List Char) := do
  let toks ← split_tokens msg
  let pieces ← toks.mapM fun t =>
    match t with
    | .str s => Except.ok s
    | .special txt =>
        if kindOf txt ≠ .OTHER then Except.error (.unexpectedItem txt)
        else
          match humanOf txt with
          | some h => if h.isEmpty then Except.ok (valOf txt) else Except.ok h
          | none => Except.ok (valOf txt)
  .ok (applySubstitutions (pieces.flatMap id))

/-- A token yielded by `tokenize`. -/
inductive Token
  | str (s : List Char)
  | preBlock (txt : List Char)
  | special (txt : List Char)
deriving DecidableEq, Repr

/-- The loop body of `tokenize` for one `preblocks` segment: preformatted
segments go through `convertpre` and become `PreBlock`s; normal segments go
through `split_tokens`, and their plain strings get emoji expansion (the
emoji table is an external collaborator: absent it, `emojize` is the
identity, which is how it is modelled here) followed by the entity
substitutions. -/
def segTokens (seg : List Char × Bool) : Except PyErr (List Token) :=
  if seg.2 then do
    let p ← convertpre seg.1
    pure [Token.preBlock p]
  else do
    let toks ← split_tokens seg.1
    pure (toks.map fun t =>
      match t with
      | .str s => Token.str (applySubstitutions s)
      | .special txt => Token.special txt)

/-- Embedding of `tokenize` from msgparsing.py: iterate `preblocks` and
yield the tokens of each segment in order. -/
def tokenize (msg : List Char) : Except PyErr (List Token) := do
  let out ← (preblocks false msg).mapM segTokens
  .ok out.flatten

/- Unfolding equations for the well-founded definitions, used both for
evaluating on concrete inputs and for the totality analysis. -/

theorem preblocks_eq_none {pre : Bool} {msg : List Char}
    (h : subIdx fence msg = none) : preblocks pre msg = [(msg, pre)] := by
  unfold preblocks
  split
  · rfl
  · rename_i p hp
    rw [h] at hp
    cases hp

theorem preblocks_eq_some {pre : Bool} {msg : List Char} (p : Nat)
    (h : subIdx fence msg = some p) :
    preblocks pre msg = (msg.take p, pre) :: preblocks (!pre) (msg.drop (p + 3)) := by
  conv_lhs => rw [preblocks.eq_def]
  split
  · rename_i hp
    rw [h] at hp
    cases hp
  · rename_i q hq
    rw [h] at hq
    injection hq with hq
    subst hq
    rfl

theorem split_tokens_eq_plain {msg : List Char} (h : charIdx '<' msg = none) :
    split_tokens msg = .ok (if msg.isEmpty then [] else [.str msg]) := by
  conv_lhs => rw [split_tokens.eq_def]
  split
  · rfl
  · rename_i b hb
    rw [h] at hb
    cases hb

theorem split_tokens_eq_err {msg : List Char} (h0 : charIdx '<' msg = some 0)
    (he : charIdx '>' msg = none) : split_tokens msg = .error .indexNotFound := by
  conv_lhs => rw [split_tokens.eq_def]
  split
  · rename_i hb
    rw [h0] at hb
    cases hb
  · rename_i b hb
    rw [h0] at hb
    injection hb with hb
    subst hb
    rw [dif_pos rfl]
    split
    · rfl
    · rename_i e hee
      rw [he] at hee
      cases hee

theorem split_tokens_eq_special {msg : List Char} (e : Nat)
    (h0 : charIdx '<' msg = some 0) (he : charIdx '>' msg = some e) :
    split_tokens msg = (do
      let rest ← split_tokens (msg.drop (e + 1))
      Except.ok (.special (msg.take (e + 1)) :: rest)) := by
  conv_lhs => rw [split_tokens.eq_def]
  split
  · rename_i hb
    rw [h0] at hb
    cases hb
  · rename_i b hb
    rw [h0] at hb
    injection hb with hb
    subst hb
    rw [dif_pos rfl]
    split
    · rename_i hee
      rw [he] at hee
      cases hee
    · rename_i f hf
      rw [he] at hf
      injection hf with hf
      subst hf
      rfl

theorem split_tokens_eq_str {msg : List Char} {b : Nat}
    (h0 : charIdx '<' msg = some b) (hb : b ≠ 0) :
    split_tokens msg = (do
      let rest ← split_tokens (msg.drop b)
      Except.ok (.str (msg.take b) :: rest)) := by
  conv_lhs => rw [split_tokens.eq_def]
  split
  · rename_i hc
    rw [h0] at hc
    cases hc
  · rename_i c hc
    rw [h0] at hc
    injection hc with hc
    subst hc
    rw [dif_neg hb]

/- Well-formedness of segments, and success of the tokenizer on
well-formed input. -/

/-- A normal segment is well formed when every `'<'` in it is followed by a
later `'>'`. -/
def angleOkB (msg : List Char) : Bool :=
  msg.tails.all fun t =>
    match t with
    | [] => true
    | d :: rest => if d = '<' then rest.any (· = '>') else true

/-- A preformatted segment is well formed when every `'<'` in it is
followed by a later `'>'` and does not open a mention, channel or yell
item. -/
def preOkB (msg : List Char) : Bool :=
  msg.tails.all fun t =>
    match t with
    | [] => true
    | d :: rest =>
        if d = '<' then
          rest.any (· = '>') &&
            !(rest.head? = some '!' || rest.head? = some '@' || rest.head? = some '#')
        else true

theorem charIdx_some_of_mem {c : Char} :
    ∀ {l : List Char}, c ∈ l → ∃ i, charIdx c l = some i := by
  intro l
  induction l with
  | nil => intro h; simp at h
  | cons d rest ih =>
      intro h
      by_cases hd : d = c
      · exact ⟨0, by simp [charIdx, hd]⟩
      · have hm : c ∈ rest := by
          rcases List.mem_cons.mp h with h1 | h1
          · exact absurd h1.symm hd
          · exact h1
        obtain ⟨i, hi⟩ := ih hm
        exact ⟨i + 1, by simp [charIdx, hd, hi]⟩

theorem charIdx_zero {c : Char} {l : List Char} (h : charIdx c l = some 0) :
    ∃ rest, l = c :: rest := by
  cases l with
  | nil => simp [charIdx] at h
  | cons d rest =>
      by_cases hd : d = c
      · exact ⟨rest, by rw [hd]⟩
      · simp [charIdx, hd] at h

theorem angleOkB_suffix {msg t : List Char} (hok : angleOkB msg = true)
    (hsuf : t <:+ msg) : angleOkB t = true := by
  rw [angleOkB, List.all_eq_true] at hok ⊢
  intro u hu
  exact hok u ((List.mem_tails _ _).mpr (((List.mem_tails _ _).mp hu).trans hsuf))

theorem angleOkB_of_preOkB {msg : List Char} (hok : preOkB msg = true) :
    angleOkB msg = true := by
  rw [preOkB, List.all_eq_true] at hok
  rw [angleOkB, List.all_eq_true]
  intro u hu
  have hthis := hok u hu
  cases u with
  | nil => rfl
  | cons d rest =>
      by_cases hd : d = '<'
      · subst hd
        simp only [if_true, eq_self_iff_true, Bool.and_eq_true] at hthis
        simp only [if_true, eq_self_iff_true]
        exact hthis.1
      · simp only [if_neg hd] at hthis ⊢

/-- On a well-formed normal segment `split_tokens` succeeds, and every
special item it yields is an angle-bracketed chunk cut out of a suffix of
the segment. -/
theorem split_tokens_ok_spec :
    ∀ (n : Nat) (msg : List Char), msg.length ≤ n → angleOkB msg = true →
      ∃ toks, split_tokens msg = .ok toks ∧
        ∀ txt, Tok.special txt ∈ toks →
          ∃ t e, t <:+ msg ∧ charIdx '<' t = some 0 ∧ charIdx '>' t = some e ∧
            txt = t.take (e + 1) := by
  intro n
  induction n with
  | zero =>
      intro msg hlen hok
      have hnil : msg = [] := List.length_eq_zero.mp (Nat.le_zero.mp hlen)
      subst hnil
      refine ⟨[], ?_, by simp⟩
      rw [split_tokens_eq_plain (by decide)]
      rfl
  | succ n ih =>
      intro msg hlen hok
      cases hfind : charIdx '<' msg with
      | none =>
          refine ⟨if msg.isEmpty then [] else [.str msg], split_tokens_eq_plain hfind, ?_⟩
          intro txt htxt
          split at htxt <;> simp at htxt
      | some b =>
          rcases Nat.eq_zero_or_pos b with hb0 | hbpos
          · subst hb0
            obtain ⟨rest, rfl⟩ := charIdx_zero hfind
            have hself : ('<' :: rest) ∈ ('<' :: rest).tails :=
              (List.mem_tails _ _).mpr (List.suffix_refl _)
            have hchk := (List.all_eq_true.mp hok) _ hself
            have hmem : '>' ∈ rest := by
              simp at hchk
              simpa using hchk
            obtain ⟨e, he⟩ := charIdx_some_of_mem hmem
            have he' : charIdx '>' ('<' :: rest) = some (e + 1) := by
              simp [charIdx, he]
            have hsub : angleOkB (('<' :: rest).drop (e + 1 + 1)) :=
              angleOkB_suffix hok (List.drop_suffix _ _)
            have hlen' : (('<' :: rest).drop (e + 1 + 1)).length ≤ n := by
              simp only [List.length_cons] at hlen
              simp
              omega
            obtain ⟨toks, htoks, hmem⟩ := ih _ hlen' hsub
            refine ⟨.special (('<' :: rest).take (e + 1 + 1)) :: toks, ?_, ?_⟩
            · rw [split_tokens_eq_special (e + 1) hfind he', htoks]
              rfl
            · intro txt htxt
              rcases List.mem_cons.mp htxt with heq | hrest
              · injection heq with heq
                exact ⟨'<' :: rest, e + 1, List.suffix_refl _, hfind, he', heq⟩
              · obtain ⟨t, f, hsuf, h0, hgt, htk⟩ := hmem txt hrest
                exact ⟨t, f, hsuf.trans (List.drop_suffix _ _), h0, hgt, htk⟩
          · have hbne : b ≠ 0 := Nat.pos_iff_ne_zero.mp hbpos
            have hsub : angleOkB (msg.drop b) :=
              angleOkB_suffix hok (List.drop_suffix _ _)
            have hblt := charIdx_lt_length hfind
            have hlen' : (msg.drop b).length ≤ n := by
              simp
              omega
            obtain ⟨toks, htoks, hmem⟩ := ih _ hlen' hsub
            refine ⟨.str (msg.take b) :: toks, ?_, ?_⟩
            · rw [split_tokens_eq_str hfind hbne, htoks]
              rfl
            · intro txt htxt
              rcases List.mem_cons.mp htxt with heq | hrest
              · cases heq
              · obtain ⟨t, f, hsuf, h0, hgt, htk⟩ := hmem txt hrest
                exact ⟨t, f, hsuf.trans (List.drop_suffix _ _), h0, hgt, htk⟩

theorem kindOf_other_of_preOk {msg : List Char} (hok : preOkB msg = true)
    {t txt : List Char} {e : Nat} (hsuf : t <:+ msg)
    (h0 : charIdx '<' t = some 0) (he : charIdx '>' t = some e)
    (htxt : txt = t.take (e + 1)) : kindOf txt = .OTHER := by
  obtain ⟨rest, rfl⟩ := charIdx_zero h0
  cases rest with
  | nil =>
      simp [charIdx] at he
  | cons c rest2 =>
      have hchk := (List.all_eq_true.mp hok) _ ((List.mem_tails _ _).mpr hsuf)
      have hc : ¬(c = '!' ∨ c = '@' ∨ c = '#') := by
        simp at hchk
        tauto
      have hene : ∃ f, e = f + 1 := by
        cases e with
        | zero =>
            obtain ⟨r, hr⟩ := charIdx_zero he
            cases hr
        | succ f => exact ⟨f, rfl⟩
      obtain ⟨f, rfl⟩ := hene
      subst htxt
      show kindOf ('<' :: c :: List.take f rest2) = Itemkind.OTHER
      unfold kindOf
      split
      · rename_i heq
        simp only [List.get?] at heq
        injection heq with heq
        exact absurd (Or.inl heq) hc
      · rename_i heq
        simp only [List.get?] at heq
        injection heq with heq
        exact absurd (Or.inr (Or.inl heq)) hc
      · rename_i heq
        simp only [List.get?] at heq
        injection heq with heq
        exact absurd (Or.inr (Or.inr heq)) hc
      · rfl

/-- Generic: `mapM` over `Except` succeeds when the function succeeds on
every element. -/
theorem mapM_ok_of_forall {α β : Type} {ε : Type} (f : α → Except ε β) :
    ∀ l : List α, (∀ a ∈ l, ∃ b, f a = .ok b) → ∃ bs, l.mapM f = .ok bs := by
  intro l
  induction l with
  | nil => intro _; exact ⟨[], rfl⟩
  | cons a rest ih =>
      intro h
      obtain ⟨b, hb⟩ := h a (List.mem_cons_self a rest)
      obtain ⟨bs, hbs⟩ := ih fun x hx => h x (List.mem_cons_of_mem a hx)
      refine ⟨b :: bs, ?_⟩
      rw [List.mapM_cons, hb, except_bind_ok, hbs, except_bind_ok]
      rfl

/-- On a well-formed preformatted segment `convertpre` succeeds. -/
theorem convertpre_ok_of_preOk (msg : List Char) (hok : preOkB msg = true) :
    ∃ r, convertpre msg = .ok r := by
  obtain ⟨toks, htoks, hspec⟩ :=
    split_tokens_ok_spec msg.length msg le_rfl (angleOkB_of_preOkB hok)
  have hall : ∀ t ∈ toks, ∃ b,
      (fun t =>
        match t with
        | .str s => Except.ok s
        | .special txt =>
            if kindOf txt ≠ Itemkind.OTHER then Except.error (PyErr.unexpectedItem txt)
            else
              match humanOf txt with
              | some h => if h.isEmpty then Except.ok (valOf txt) else Except.ok h
              | none => Except.ok (valOf txt)) t = Except.ok b := by
    intro t ht
    match t with
    | .str s => exact ⟨s, rfl⟩
    | .special txt =>
        obtain ⟨u, e, hsuf, h0, he, htk⟩ := hspec txt ht
        have hkind := kindOf_other_of_preOk hok hsuf h0 he htk
        simp only [hkind]
        match humanOf txt with
        | some h =>
            by_cases hh : h.isEmpty
            · exact ⟨valOf txt, by simp [hh]⟩
            · exact ⟨h, by simp [hh]⟩
        | none => exact ⟨valOf txt, by simp⟩
  obtain ⟨pieces, hpieces⟩ := mapM_ok_of_forall _ toks hall
  refine ⟨applySubstitutions (pieces.flatMap id), ?_⟩
  rw [convertpre, htoks, except_bind_ok, hpieces, except_bind_ok]

end Msgparsing

/- ===== Claim C3 ===== -/

/-- C3 fails as stated: `tokenize` is not total.  A normal segment holding
a `'<'` with no subsequent `'>'` raises `ValueError` from `msg.index('>')`
in `split_tokens` (e.g. on the input `"<a"`), and a preformatted segment
holding a mention item raises the explicit
`ValueError('Unexpected slack item in preformatted block …')` in
`convertpre` (e.g. on the three-tick-fenced input containing `"<@U>"`). -/
theorem C3_counterexample :
    Msgparsing.tokenize ['<', 'a'] = .error .indexNotFound ∧
    Msgparsing.tokenize
        (Msgparsing.fence ++ ['<', '@', 'U', '>'] ++ Msgparsing.fence)
      = .error (.unexpectedItem ['<', '@', 'U', '>']) := by
  constructor
  · have h1 : Msgparsing.preblocks false ['<', 'a'] = [(['<', 'a'], false)] :=
      Msgparsing.preblocks_eq_none (by decide)
    have h2 : Msgparsing.split_tokens ['<', 'a'] = .error .indexNotFound :=
      Msgparsing.split_tokens_eq_err (by decide) (by decide)
    simp [Msgparsing.tokenize, Msgparsing.segTokens, h1, h2, List.mapM.loop,
      except_bind_ok, except_bind_err, except_pure_eq]
  · have s1 : Msgparsing.preblocks false
        (Msgparsing.fence ++ ['<', '@', 'U', '>'] ++ Msgparsing.fence) =
        ((Msgparsing.fence ++ ['<', '@', 'U', '>'] ++ Msgparsing.fence).take 0, false) ::
          Msgparsing.preblocks (!false)
            ((Msgparsing.fence ++ ['<', '@', 'U', '>'] ++ Msgparsing.fence).drop (0 + 3)) :=
      Msgparsing.preblocks_eq_some 0 (by decide)
    have s2 : Msgparsing.preblocks (!false)
        ((Msgparsing.fence ++ ['<', '@', 'U', '>'] ++ Msgparsing.fence).drop (0 + 3)) =
        (((Msgparsing.fence ++ ['<', '@', 'U', '>'] ++ Msgparsing.fence).drop (0 + 3)).take 4,
            !false) ::
          Msgparsing.preblocks (!(!false))
            (((Msgparsing.fence ++ ['<', '@', 'U', '>'] ++ Msgparsing.fence).drop
                (0 + 3)).drop (4 + 3)) :=
      Msgparsing.preblocks_eq_some 4 (by decide)
    have s3 : Msgparsing.preblocks (!(!false))
        (((Msgparsing.fence ++ ['<', '@', 'U', '>'] ++ Msgparsing.fence).drop
            (0 + 3)).drop (4 + 3)) =
        [((((Msgparsing.fence ++ ['<', '@', 'U', '>'] ++ Msgparsing.fence).drop
            (0 + 3)).drop (4 + 3)), !(!false))] :=
      Msgparsing.preblocks_eq_none (by decide)
    have hsegs : Msgparsing.preblocks false
        (Msgparsing.fence ++ ['<', '@', 'U', '>'] ++ Msgparsing.fence) =
        [([], false), (['<', '@', 'U', '>'], true), ([], false)] := by
      rw [s1, s2, s3]
      decide
    have p0 : Msgparsing.split_tokens [] = .ok [] := by
      rw [Msgparsing.split_tokens_eq_plain (by decide)]
      rfl
    have pX : Msgparsing.split_tokens ['<', '@', 'U', '>'] =
        .ok [.special ['<', '@', 'U', '>']] := by
      rw [Msgparsing.split_tokens_eq_special 3 (by decide) (by decide)]
      have pd : Msgparsing.split_tokens (['<', '@', 'U', '>'].drop (3 + 1)) = .ok [] := by
        rw [Msgparsing.split_tokens_eq_plain (by decide)]
        rfl
      rw [pd]
      rfl
    have cX : Msgparsing.convertpre ['<', '@', 'U', '>'] =
        .error (.unexpectedItem ['<', '@', 'U', '>']) := by
      rw [Msgparsing.convertpre, pX]
      rfl
    simp only [Msgparsing.tokenize]
    rw [hsegs]
    simp [Msgparsing.segTokens, p0, cX, List.mapM.loop,
      except_bind_ok, except_bind_err, except_pure_eq]

/-- C3 amended: `tokenize` is total on inputs whose normal segments close
every `'<'` with a later `'>'`, and whose preformatted segments additionally
contain no `<@…>`, `<#…>` or `<!…>` item; on such input it returns a token
sequence without raising (`ValueError` is raised exactly by the two excluded
shapes). -/
theorem C3_tokenize_amended (msg : List Char)
    (h : ∀ seg ∈ Msgparsing.preblocks false msg,
        (if seg.2 then Msgparsing.preOkB seg.1 else Msgparsing.angleOkB seg.1) = true) :
    ∃ toks, Msgparsing.tokenize msg = .ok toks := by
  have hall : ∀ seg ∈ Msgparsing.preblocks false msg,
      ∃ r, Msgparsing.segTokens seg = .ok r := by
    intro seg hseg
    have hcond := h seg hseg
    by_cases hp : seg.2
    · rw [if_pos hp] at hcond
      obtain ⟨r, hr⟩ := Msgparsing.convertpre_ok_of_preOk seg.1 hcond
      refine ⟨[.preBlock r], ?_⟩
      simp only [Msgparsing.segTokens, if_pos hp]
      rw [hr, except_bind_ok]
      rfl
    · rw [if_neg hp] at hcond
      obtain ⟨toks, htoks, hspec⟩ :=
        Msgparsing.split_tokens_ok_spec seg.1.length seg.1 le_rfl hcond
      refine ⟨toks.map fun t =>
        match t with
        | .str s => Msgparsing.Token.str (Msgparsing.applySubstitutions s)
        | .special txt => Msgparsing.Token.special txt, ?_⟩
      simp only [Msgparsing.segTokens, if_neg hp]
      rw [htoks, except_bind_ok]
      rfl
  obtain ⟨outs, houts⟩ := Msgparsing.mapM_ok_of_forall _ _ hall
  refine ⟨outs.flatten, ?_⟩
  simp only [Msgparsing.tokenize]
  rw [houts, except_bind_ok]

/-- Witness for C3 amended at a concrete input. -/
theorem C3_tokenize_amended_witness :
    ∃ toks, Msgparsing.tokenize ['h', 'i'] = .ok toks :=
  C3_tokenize_amended ['h', 'i'] (by
    intro seg hseg
    rw [Msgparsing.preblocks_eq_none (by decide)] at hseg
    simp at hseg
    subst hseg
    decide)

namespace SlackMod

/- ===== slack.py ===== -/

/-- The fields of the `Response` NamedTuple of slack.py read by
`_send_message`: `ok`, `ts` (an `Optional[float]`, modelled as `Option ℚ`)
and `error` (an `Optional[str]`).  The unread `headers` field is omitted. -/
structure Response where
  ok : Bool
  ts : Option ℚ := none
  error : Option (List Char) := none
deriving DecidableEq, Repr

/-- Python truthiness of `response.ts`: `None` and `0.0` are falsy. -/
def tsTruthy : Option ℚ → Bool
  | none => false
  | some t => t ≠ 0

/-- Embedding of `Slack._send_message` (slack.py lines 922–958) as a
function of the parsed API response, the `re_send_to_irc` flag and the
sent-by-self set (modelled as a list of timestamps; `add` is cons).
The body is

```
if response.ok and response.ts and not re_send_to_irc:
    self._sent_by_self.add(response.ts)
    return
raise ResponseException(response.error)
```

inside a `try/finally` that increments and then always decrements the
`_wsblock` counter, leaving it unchanged; an exception carries the
response's `error` field.  On success the function returns the updated
sent-by-self set. -/
def sendMessage (response : Response) (re_send_to_irc : Bool)
    (sentBySelf : List ℚ) : Except (Option (List Char)) (List ℚ) :=
  if response.ok && tsTruthy response.ts && !re_send_to_irc then
    .ok (response.ts.getD 0 :: sentBySelf)
  else
    .error response.error

/-- The part of `Slack._status` relevant to timestamp handling. -/
structure SlackStatus where
  last_timestamp : ℚ
deriving DecidableEq, Repr

/-- The operations of a session that can write `_status.last_timestamp`.
A survey of slack.py shows exactly two write sites: `event()`
(lines 1009–1014) computes `ts = float(event.get('ts', 0))` for every
received frame (before the useless-events filter) and runs
`if ts > self._status.last_timestamp: self._status.last_timestamp = ts`;
`_history` (lines 484–493) runs
`if self._status.last_timestamp < msg.ts: self._status.last_timestamp = msg.ts`
for every replayed message.  Every other operation leaves the field
unchanged (`other`). -/
inductive TsOp
  | eventFrame (ts : ℚ)
  | historyMsg (ts : ℚ)
  | other
deriving DecidableEq, Repr

/-- Effect of one operation on `_status.last_timestamp`. -/
def applyTsOp (s : SlackStatus) : TsOp → SlackStatus
  | .eventFrame ts => if ts > s.last_timestamp then ⟨ts⟩ else s
  | .historyMsg ts => if s.last_timestamp < ts then ⟨ts⟩ else s
  | .other => s

/-- A whole session: the operations applied in order. -/
def runTsOps (s : SlackStatus) : List TsOp → SlackStatus
  | [] => s
  | op :: rest => runTsOps (applyTsOp s op) rest

theorem applyTsOp_mono (s : SlackStatus) (op : TsOp) :
    s.last_timestamp ≤ (applyTsOp s op).last_timestamp := by
  cases op with
  | eventFrame ts =>
      by_cases h : ts > s.last_timestamp
      · simp [applyTsOp, h]
        exact le_of_lt h
      · simp [applyTsOp, h]
  | historyMsg ts =>
      by_cases h : s.last_timestamp < ts
      · simp [applyTsOp, h]
        exact le_of_lt h
      · simp [applyTsOp, h]
  | other => exact le_refl _

theorem runTsOps_mono (ops : List TsOp) :
    ∀ s : SlackStatus, s.last_timestamp ≤ (runTsOps s ops).last_timestamp := by
  induction ops with
  | nil => intro s; exact le_refl _
  | cons op rest ih =>
      intro s
      exact le_trans (applyTsOp_mono s op) (ih (applyTsOp s op))

end SlackMod

/- ===== Claim C1 ===== -/

/-- C1 (code bug): evaluation of `_send_message` at the failing input.
With a successful response (`ok=true`, `ts=1`) and `re_send_to_irc=true`,
the code raises `ResponseException(None)` instead of returning normally:
the success path `if response.ok and response.ts and not re_send_to_irc`
requires `re_send_to_irc` to be false even to return.  The two behaviours
the claim states correctly do hold: `ok=false` raises a `ResponseException`
carrying the error field and records nothing, and `ok=true` with
`re_send_to_irc=false` returns normally and records the server `ts`. -/
theorem C1_send_message_bug :
    SlackMod.sendMessage ⟨true, some 1, none⟩ true [] = .error none ∧
    SlackMod.sendMessage ⟨false, some 1, some ['x']⟩ false [] = .error (some ['x']) ∧
    SlackMod.sendMessage ⟨true, some 1, none⟩ false [] = .ok [1] := by
  refine ⟨rfl, rfl, rfl⟩

/- ===== Claim C8 ===== -/

/-- C8: `Slack._status.last_timestamp` is monotone non-decreasing over
every sequence of operations of a session: `event()` assigns an incoming
frame's `ts` only when it exceeds the current value, `_history` assigns a
replayed message's `ts` only when it exceeds the current value, and no
operation decreases the field. -/
theorem C8_last_timestamp_monotone (ops : List SlackMod.TsOp)
    (s : SlackMod.SlackStatus) :
    s.last_timestamp ≤ (SlackMod.runTsOps s ops).last_timestamp ∧
    (∀ ts : ℚ, (SlackMod.applyTsOp s (.eventFrame ts)).last_timestamp =
      if ts > s.last_timestamp then ts else s.last_timestamp) ∧
    (∀ ts : ℚ, (SlackMod.applyTsOp s (.historyMsg ts)).last_timestamp =
      if s.last_timestamp < ts then ts else s.last_timestamp) := by
  refine ⟨SlackMod.runTsOps_mono ops s, ?_, ?_⟩
  · intro ts
    by_cases h : ts > s.last_timestamp <;> simp [SlackMod.applyTsOp, h]
  · intro ts
    by_cases h : s.last_timestamp < ts <;> simp [SlackMod.applyTsOp, h]

namespace SlackMod

/- ===== slack.py: history replay and the event queue (claim C4) ===== -/

/-- A history message as read back from `conversations.history` /
`conversations.replies`: server timestamp, optional thread timestamp, and
whether it is a bot message.  In the source `ts` is a float and
`thread_ts` an optional *string*; both are modelled as rationals and the
spots where the source compares the two representations are noted below. -/
structure HMsg where
  ts : ℚ
  thread : Option ℚ := none
  bot : Bool := false
deriving DecidableEq, Repr

/-- Embedding of `Slack._thread_history` as a function of the concatenated
`conversations.replies` pages.  The source keeps
`[i for i in response.messages if i.ts != i.thread_ts]` — but `i.ts` is a
float and `i.thread_ts` an optional string, so the comparison is always
true and nothing is filtered — and then clears the thread timestamp of the
first kept message (`r[0].thread_ts = None`; the root arrives first).  On
an empty reply list the source would raise IndexError from `r[0]`; the
remote always returns at least the root. -/
def threadHistory : List HMsg → List HMsg
  | [] => []
  | m :: rest => {m with thread := none} :: rest

/-- The inner `while msg_list` loop of `Slack._history` (slack.py lines
484–521), processing the message list of ONE `conversations.history`
response, as the list of events appended to `_internalevents`, in append
order.  The loop pops messages from the front; a message whose `ts`
equals the remembered `last_timestamp` is skipped; a thread root
(`msg.thread_ts` truthy and `float(msg.thread_ts) == msg.ts`) is
replaced by its reversed thread history spliced onto the front of the
remaining list (`continue`: the root itself is not injected here — it
reappears inside the thread history with its thread timestamp cleared);
every other message is injected into the internal queue.  `fuel` bounds
the loop: the Python loop can diverge only if the remote returns a reply
that is itself marked as a thread root, which the remote model excludes.
The enclosing `while True` cursor loop of `_history` is
`historyOuterLoop` below. -/
def historyChannel (replies : ℚ → List HMsg) :
    Nat → ℚ → List HMsg → List HMsg
  | 0, _, _ => []
  | _ + 1, _, [] => []
  | fuel + 1, lastTs, m :: rest =>
      if m.ts = lastTs then historyChannel replies fuel lastTs rest
      else
        match m.thread with
        | some t =>
            if t = m.ts then
              historyChannel replies fuel lastTs
                ((threadHistory (replies m.ts)).reverse ++ rest)
            else m :: historyChannel replies fuel lastTs rest
        | none => m :: historyChannel replies fuel lastTs rest

/-- Loop-iteration budget of one message: a thread root costs itself plus
its replies. -/
def msgSize (replies : ℚ → List HMsg) (m : HMsg) : Nat :=
  match m.thread with
  | some t => if t = m.ts then 1 + (replies m.ts).length else 1
  | none => 1

/-- Loop-iteration budget of a message list. -/
def histSize (replies : ℚ → List HMsg) (l : List HMsg) : Nat :=
  (l.map (msgSize replies)).sum

theorem msgSize_pos (replies : ℚ → List HMsg) (m : HMsg) :
    1 ≤ msgSize replies m := by
  rw [msgSize]
  rcases m.thread with _ | t
  · exact le_refl _
  · by_cases h : t = m.ts <;> simp [h]

theorem histSize_cons (replies : ℚ → List HMsg) (m : HMsg) (l : List HMsg) :
    histSize replies (m :: l) = msgSize replies m + histSize replies l := by
  simp [histSize]

theorem histSize_append (replies : ℚ → List HMsg) (l₁ l₂ : List HMsg) :
    histSize replies (l₁ ++ l₂) = histSize replies l₁ + histSize replies l₂ := by
  simp [histSize]

theorem msgSize_eq_one_of_not_root (replies : ℚ → List HMsg) {m : HMsg}
    (h : m.thread ≠ some m.ts) : msgSize replies m = 1 := by
  rw [msgSize]
  rcases hm : m.thread with _ | t
  · rfl
  · have : t ≠ m.ts := fun ht => h (by rw [hm, ht])
    simp [this]

theorem histSize_eq_length (replies : ℚ → List HMsg) :
    ∀ {l : List HMsg}, (∀ x ∈ l, x.thread ≠ some x.ts) →
      histSize replies l = l.length := by
  intro l
  induction l with
  | nil => intro _; rfl
  | cons m rest ih =>
      intro h
      rw [histSize_cons, msgSize_eq_one_of_not_root replies (h m (by simp)),
        ih fun x hx => h x (List.mem_cons_of_mem m hx)]
      simp [Nat.add_comm]

theorem threadHistory_length (l : List HMsg) :
    (threadHistory l).length = l.length := by
  cases l <;> rfl

theorem threadHistory_map_ts (l : List HMsg) :
    (threadHistory l).map HMsg.ts = l.map HMsg.ts := by
  cases l <;> rfl

theorem threadHistory_mem_ts {l : List HMsg} {x : HMsg}
    (h : x ∈ threadHistory l) : ∃ y ∈ l, y.ts = x.ts := by
  cases l with
  | nil => cases h
  | cons m rest =>
      rcases List.mem_cons.mp h with heq | hmem
      · exact ⟨m, by simp, by rw [heq]⟩
      · exact ⟨x, List.mem_cons_of_mem m hmem, rfl⟩

end SlackMod

namespace SlackMod

/-- The remote model of one channel's history, strengthened with the
interleaving condition the claim is missing: pages arrive newest-first
(strictly descending), each thread root's `conversations.replies` list
arrives oldest-first (strictly ascending), every reply carries the root's
thread timestamp and is not older than the root, and — the added
condition — every reply is older than every channel message newer than its
root. -/
def GoodList (replies : ℚ → List HMsg) (L : List HMsg) : Prop :=
  L.Pairwise (fun a b => b.ts < a.ts) ∧
  ∀ m ∈ L, m.thread = some m.ts →
    (replies m.ts).Pairwise (fun a b => a.ts < b.ts) ∧
    (∀ r ∈ replies m.ts, r.thread = some m.ts) ∧
    (∀ r ∈ replies m.ts, m.ts ≤ r.ts) ∧
    (∀ r ∈ replies m.ts, ∀ m' ∈ L, m.ts < m'.ts → r.ts < m'.ts)

/-- `b` bounds everything that can still be injected from the list `L`:
its members and the replies of its thread roots. -/
def UpperOK (replies : ℚ → List HMsg) (L : List HMsg) (b : ℚ) : Prop :=
  (∀ y ∈ L, y.ts < b) ∧
  (∀ m ∈ L, m.thread = some m.ts → ∀ r ∈ replies m.ts, r.ts < b)

theorem UpperOK_of_cons {replies : ℚ → List HMsg} {m : HMsg} {rest : List HMsg}
    {b : ℚ} (h : UpperOK replies (m :: rest) b) : UpperOK replies rest b :=
  ⟨fun y hy => h.1 y (List.mem_cons_of_mem m hy),
   fun x hx => h.2 x (List.mem_cons_of_mem m hx)⟩

theorem GoodList_of_cons {replies : ℚ → List HMsg} {m : HMsg} {rest : List HMsg}
    (h : GoodList replies (m :: rest)) : GoodList replies rest := by
  refine ⟨(List.pairwise_cons.mp h.1).2, ?_⟩
  intro m' hm' hroot
  obtain ⟨hasc, hthr, hge, hcross⟩ := h.2 m' (List.mem_cons_of_mem m hm') hroot
  exact ⟨hasc, hthr, hge,
    fun r hr m'' hm'' => hcross r hr m'' (List.mem_cons_of_mem m hm'')⟩

/-- No element of a thread history is itself detected as a thread root:
the first message has its thread timestamp cleared, the others carry the
root's timestamp, strictly smaller than their own. -/
theorem threadHistory_no_root {replies : ℚ → List HMsg} {rootTs : ℚ}
    (hasc : (replies rootTs).Pairwise (fun a b => a.ts < b.ts))
    (hthr : ∀ r ∈ replies rootTs, r.thread = some rootTs)
    (hge : ∀ r ∈ replies rootTs, rootTs ≤ r.ts) :
    ∀ x ∈ threadHistory (replies rootTs), x.thread ≠ some x.ts := by
  intro x hx hcontra
  rcases hR : replies rootTs with _ | ⟨r, rs⟩
  · rw [hR] at hx
    cases hx
  · rw [hR] at hx
    rcases List.mem_cons.mp hx with heq | hmem
    · rw [heq] at hcontra
      cases hcontra
    · have hthread : x.thread = some rootTs := hthr x (by rw [hR]; exact List.mem_cons_of_mem r hmem)
      rw [hthread] at hcontra
      injection hcontra with hts
      have hlt : r.ts < x.ts := by
        have := (List.pairwise_cons.mp (hR ▸ hasc)).1
        exact this x hmem
      have hge' : rootTs ≤ r.ts := hge r (by rw [hR]; exact List.mem_cons_self r rs)
      rw [← hts] at hlt
      exact absurd hge' (not_le.mpr hlt)

/-- `threadHistory` only rewrites a thread field, so any timestamp-based
pairwise relation carries over. -/
theorem threadHistory_pairwise_ts {p : ℚ → ℚ → Prop} {l : List HMsg}
    (h : l.Pairwise (fun a b => p a.ts b.ts)) :
    (threadHistory l).Pairwise (fun a b => p a.ts b.ts) := by
  cases l with
  | nil => exact List.Pairwise.nil
  | cons m rest =>
      rw [List.pairwise_cons] at h
      show List.Pairwise _ ({m with thread := none} :: rest)
      rw [List.pairwise_cons]
      exact ⟨fun b hb => h.1 b hb, h.2⟩

/-- Splicing a root's thread history onto the remaining pages preserves the
remote model. -/
theorem GoodList_splice {replies : ℚ → List HMsg} {m : HMsg} {rest : List HMsg}
    (hgood : GoodList replies (m :: rest)) (hroot : m.thread = some m.ts) :
    GoodList replies ((threadHistory (replies m.ts)).reverse ++ rest) := by
  obtain ⟨hdesc, hroots⟩ := hgood
  obtain ⟨hasc, hthr, hge, hcross⟩ := hroots m (List.mem_cons_self m rest) hroot
  have hrest_lt : ∀ y ∈ rest, y.ts < m.ts := (List.pairwise_cons.mp hdesc).1
  have hmem_ts : ∀ x ∈ threadHistory (replies m.ts), m.ts ≤ x.ts := by
    intro x hx
    obtain ⟨y, hy, hyts⟩ := threadHistory_mem_ts hx
    rw [← hyts]
    exact hge y hy
  have hnoroot := threadHistory_no_root hasc hthr hge
  constructor
  · rw [List.pairwise_append]
    refine ⟨?_, (List.pairwise_cons.mp hdesc).2, ?_⟩
    · rw [List.pairwise_reverse]
      exact threadHistory_pairwise_ts hasc
    · intro a ha b hb
      have ha' : a ∈ threadHistory (replies m.ts) := List.mem_reverse.mp ha
      exact lt_of_lt_of_le (hrest_lt b hb) (hmem_ts a ha')
  · intro m' hm' hroot'
    rcases List.mem_append.mp hm' with hth | hrest
    · exact absurd hroot' (hnoroot m' (List.mem_reverse.mp hth))
    · obtain ⟨hasc', hthr', hge', hcross'⟩ :=
        hroots m' (List.mem_cons_of_mem m hrest) hroot'
      refine ⟨hasc', hthr', hge', ?_⟩
      intro r hr m'' hm'' hlt
      rcases List.mem_append.mp hm'' with hth | hrest'
      · have h1 : m'.ts < m.ts := hrest_lt m' hrest
        have h2 : r.ts < m.ts := hcross' r hr m (List.mem_cons_self m rest) h1
        exact lt_of_lt_of_le h2 (hmem_ts m'' (List.mem_reverse.mp hth))
      · exact hcross' r hr m'' (List.mem_cons_of_mem m hrest') hlt

/-- Splicing preserves the upper bound. -/
theorem UpperOK_splice {replies : ℚ → List HMsg} {m : HMsg} {rest : List HMsg}
    {b : ℚ} (h : UpperOK replies (m :: rest) b) (hroot : m.thread = some m.ts)
    (hgood : GoodList replies (m :: rest)) :
    UpperOK replies ((threadHistory (replies m.ts)).reverse ++ rest) b := by
  obtain ⟨hmem, hrep⟩ := h
  obtain ⟨hasc, hthr, hge, _⟩ :=
    hgood.2 m (List.mem_cons_self m rest) hroot
  have hnoroot := threadHistory_no_root hasc hthr hge
  constructor
  · intro y hy
    rcases List.mem_append.mp hy with hth | hrest
    · obtain ⟨z, hz, hzts⟩ := threadHistory_mem_ts (List.mem_reverse.mp hth)
      rw [← hzts]
      exact hrep m (List.mem_cons_self m rest) hroot z hz
    · exact hmem y (List.mem_cons_of_mem m hrest)
  · intro m' hm' hroot'
    rcases List.mem_append.mp hm' with hth | hrest
    · exact absurd hroot' (hnoroot m' (List.mem_reverse.mp hth))
    · exact hrep m' (List.mem_cons_of_mem m hrest) hroot'

end SlackMod

namespace SlackMod

theorem historyChannel_succ (replies : ℚ → List HMsg) (fuel : Nat)
    (lastTs : ℚ) (m : HMsg) (rest : List HMsg) :
    historyChannel replies (fuel + 1) lastTs (m :: rest) =
      if m.ts = lastTs then historyChannel replies fuel lastTs rest
      else
        match m.thread with
        | some t =>
            if t = m.ts then
              historyChannel replies fuel lastTs
                ((threadHistory (replies m.ts)).reverse ++ rest)
            else m :: historyChannel replies fuel lastTs rest
        | none => m :: historyChannel replies fuel lastTs rest := rfl

/-- Under the remote model, one channel's replay queue is strictly
descending in timestamp (so the drained order — the reverse — is strictly
ascending), and is bounded by any bound on what the list can inject. -/
theorem historyChannel_sorted (replies : ℚ → List HMsg) :
    ∀ (fuel : Nat) (L : List HMsg) (lastTs : ℚ),
      histSize replies L ≤ fuel → GoodList replies L →
      (historyChannel replies fuel lastTs L).Pairwise (fun a b => b.ts < a.ts) ∧
      (∀ b : ℚ, UpperOK replies L b →
        ∀ x ∈ historyChannel replies fuel lastTs L, x.ts < b) := by
  intro fuel
  induction fuel with
  | zero =>
      intro L lastTs hfuel hgood
      refine ⟨List.Pairwise.nil, ?_⟩
      intro b hb x hx
      simp [historyChannel] at hx
  | succ fuel ih =>
      intro L lastTs hfuel hgood
      cases L with
      | nil =>
          refine ⟨List.Pairwise.nil, ?_⟩
          intro b hb x hx
          simp [historyChannel] at hx
      | cons m rest =>
          rw [historyChannel_succ]
          by_cases hskip : m.ts = lastTs
          · rw [if_pos hskip]
            have hfuel' : histSize replies rest ≤ fuel := by
              have := msgSize_pos replies m
              rw [histSize_cons] at hfuel
              omega
            have hrec := ih rest lastTs hfuel' (GoodList_of_cons hgood)
            exact ⟨hrec.1, fun b hb x hx => hrec.2 b (UpperOK_of_cons hb) x hx⟩
          · rw [if_neg hskip]
            have hfuel' : histSize replies rest ≤ fuel := by
              have := msgSize_pos replies m
              rw [histSize_cons] at hfuel
              omega
            have hrec := ih rest lastTs hfuel' (GoodList_of_cons hgood)
            have hemit :
                (m :: historyChannel replies fuel lastTs rest).Pairwise
                  (fun a b => b.ts < a.ts) ∧
                (∀ b : ℚ, UpperOK replies (m :: rest) b →
                  ∀ x ∈ m :: historyChannel replies fuel lastTs rest, x.ts < b) := by
              constructor
              · rw [List.pairwise_cons]
                refine ⟨?_, hrec.1⟩
                intro x hx
                refine hrec.2 m.ts ⟨(List.pairwise_cons.mp hgood.1).1, ?_⟩ x hx
                intro m'' hm'' hroot'' r hr
                obtain ⟨_, _, _, hcross⟩ :=
                  hgood.2 m'' (List.mem_cons_of_mem m hm'') hroot''
                exact hcross r hr m (List.mem_cons_self m rest)
                  ((List.pairwise_cons.mp hgood.1).1 m'' hm'')
              · intro b hb x hx
                rcases List.mem_cons.mp hx with heq | hmem
                · rw [heq]
                  exact hb.1 m (List.mem_cons_self m rest)
                · exact hrec.2 b (UpperOK_of_cons hb) x hmem
            rcases hm : m.thread with _ | t
            · simp only [hm]
              exact hemit
            · simp only [hm]
              by_cases hroot : t = m.ts
              · rw [if_pos hroot]
                have hrootEq : m.thread = some m.ts := by rw [hm, hroot]
                have hgood' := GoodList_splice hgood hrootEq
                have hfuel2 : histSize replies
                    ((threadHistory (replies m.ts)).reverse ++ rest) ≤ fuel := by
                  obtain ⟨hasc, hthr, hge, _⟩ :=
                    hgood.2 m (List.mem_cons_self m rest) hrootEq
                  have hno := threadHistory_no_root hasc hthr hge
                  have h1 : histSize replies ((threadHistory (replies m.ts)).reverse)
                      = (replies m.ts).length := by
                    rw [histSize_eq_length replies
                        (fun x hx => hno x (List.mem_reverse.mp hx)),
                      List.length_reverse, threadHistory_length]
                  have h2 : msgSize replies m = 1 + (replies m.ts).length := by
                    rw [msgSize, hm]
                    simp [hroot]
                  rw [histSize_append, h1]
                  rw [histSize_cons, h2] at hfuel
                  omega
                have hrec2 := ih _ lastTs hfuel2 hgood'
                exact ⟨hrec2.1,
                  fun b hb x hx => hrec2.2 b (UpperOK_splice hb hrootEq hgood) x hx⟩
              · rw [if_neg hroot]
                exact hemit

end SlackMod

namespace SlackMod

/-- The state read by `Slack.event()` (slack.py lines 990–998): the
internal event queue and the websocket (abstract, type `σ`). -/
structure EvState (α σ : Type) where
  internalevents : List α
  socket : σ

/-- Embedding of the head of `Slack.event()`:
`if self._internalevents: return self._internalevents.pop()` — Python
`list.pop()` removes and returns the LAST element — and only when the
queue is empty is the websocket read (`rtm_read` and the frame loop,
abstracted as `readSocket`). -/
def eventPoll {α σ : Type} (readSocket : σ → Option α × σ)
    (s : EvState α σ) : Option α × EvState α σ :=
  match s.internalevents.getLast? with
  | some e => (some e, ⟨s.internalevents.dropLast, s.socket⟩)
  | none =>
      let r := readSocket s.socket
      (r.1, ⟨[], r.2⟩)

/-- `n` successive calls to `event()`, collecting the returned events. -/
def drainN {α σ : Type} (readSocket : σ → Option α × σ) :
    Nat → EvState α σ → List α × EvState α σ
  | 0, s => ([], s)
  | n + 1, s =>
      let p := eventPoll readSocket s
      let q := drainN readSocket n p.2
      (p.1.toList ++ q.1, q.2)

theorem getLast?_some_of_ne_nil {α : Type} {l : List α} (h : l ≠ []) :
    ∃ a, l.getLast? = some a := by
  cases l with
  | nil => exact absurd rfl h
  | cons a rest => exact ⟨(a :: rest).getLast (by simp), List.getLast?_eq_getLast _ (by simp)⟩

/-- A non-empty internal queue is served without touching the socket, and
the popped element is the queue's last. -/
theorem eventPoll_queue_first {α σ : Type} (readSocket : σ → Option α × σ)
    (s : EvState α σ) (h : s.internalevents ≠ []) :
    (eventPoll readSocket s).2.socket = s.socket ∧
    (eventPoll readSocket s).1 = s.internalevents.getLast? ∧
    (eventPoll readSocket s).2.internalevents = s.internalevents.dropLast := by
  obtain ⟨a, ha⟩ := getLast?_some_of_ne_nil h
  rw [eventPoll, ha]
  exact ⟨rfl, rfl, rfl⟩

/-- Draining as many `event()` calls as the queue is long returns exactly
the queue reversed — i.e. in the opposite of append order — leaving the
socket untouched. -/
theorem drainN_reverse {α σ : Type} (readSocket : σ → Option α × σ) :
    ∀ (q : List α) (sock : σ),
      drainN readSocket q.length ⟨q, sock⟩ = (q.reverse, ⟨[], sock⟩) := by
  intro q
  induction q using List.reverseRecOn with
  | nil => intro sock; rfl
  | append_singleton l a ih =>
      intro sock
      have hlen : (l ++ [a]).length = l.length + 1 := by simp
      rw [hlen, drainN]
      have hpoll : eventPoll readSocket ⟨l ++ [a], sock⟩ = (some a, ⟨l, sock⟩) := by
        rw [eventPoll]
        simp only [List.getLast?_concat]
        rw [List.dropLast_concat]
      rw [hpoll, ih sock]
      simp

end SlackMod

namespace SlackMod

/-- One `conversations.history` response — the `History` NamedTuple of
slack.py (lines 308–312): the message list, the `has_more` flag, and the
`response_metadata.next_cursor` string when `response_metadata` is
present (`none` models a `None`, hence falsy, `response_metadata`; a
present `NextCursor` is a one-field NamedTuple and always truthy). -/
structure Page where
  messages : List HMsg
  has_more : Bool
  next_cursor : Option (List Char) := none
deriving DecidableEq, Repr

/-- The outer `while True` cursor loop of `Slack._history` (slack.py
lines 476–529) for one channel, as the list of events appended to
`_internalevents` in append order.  `fetch k` is the `History` returned
by the `k`-th call of `get_history` (`none` models the call raising, on
which the source breaks out of the loop, keeping what was queued so
far).  The loop never passes `cursor` to `get_history`: slack.py line
480 calls it with the channel and timestamp only, so the `cursor`
parameter keeps its default `None` and the remote is asked the same
question on every iteration.  After the inner loop processes a page the
source breaks if `has_more` is false or `response_metadata` is falsy;
otherwise it breaks when the response's `next_cursor` equals the stored
`cursor` (initially `None`, so never on the first iteration) — but only
AFTER the page has been processed again.  `fuel` bounds the outer loop
and `k` counts the calls made so far. -/
def historyOuterLoop (fetch : Nat → Option Page) (replies : ℚ → List HMsg)
    (innerFuel : Nat) (lastTs : ℚ) :
    Nat → Nat → Option (List Char) → List HMsg
  | 0, _, _ => []
  | fuel + 1, k, cursor =>
      match fetch k with
      | none => []
      | some page =>
          let processed := historyChannel replies innerFuel lastTs page.messages
          match page.has_more, page.next_cursor with
          | true, some nc =>
              if some nc = cursor then processed
              else processed ++
                historyOuterLoop fetch replies innerFuel lastTs fuel (k + 1) (some nc)
          | true, none => processed
          | false, _ => processed

/-- One channel's full pass of `Slack._history`: the cursor loop started
with `cursor = None` and no calls made yet. -/
def historyChannelFull (fetch : Nat → Option Page) (replies : ℚ → List HMsg)
    (innerFuel outerFuel : Nat) (lastTs : ℚ) : List HMsg :=
  historyOuterLoop fetch replies innerFuel lastTs outerFuel 0 none

/-- When the first response is complete (`has_more` false, or no
`response_metadata`), the cursor loop processes exactly that one page:
the full pass is the inner loop's output on it. -/
theorem historyChannelFull_single (fetch : Nat → Option Page)
    (replies : ℚ → List HMsg) (innerFuel n : Nat) (lastTs : ℚ)
    (page : Page) (hf : fetch 0 = some page)
    (hstop : page.has_more = false ∨ page.next_cursor = none) :
    historyChannelFull fetch replies innerFuel (n + 1) lastTs =
      historyChannel replies innerFuel lastTs page.messages := by
  rw [historyChannelFull]
  simp only [historyOuterLoop, hf]
  obtain ⟨msgs, hm, nc⟩ := page
  rcases hstop with h | h
  · simp only at h
    rw [h]
  · simp only at h
    rw [h]
    cases hm <;> rfl

/-- When a deterministic remote reports more pages: because the cursor
is never passed to `get_history`, the second call returns the same page,
which is processed a second time before the stuck-cursor guard breaks
the loop.  The full pass duplicates the first page's output, and later
pages are never fetched. -/
theorem historyChannelFull_stuck (fetch : Nat → Option Page)
    (replies : ℚ → List HMsg) (innerFuel m : Nat) (lastTs : ℚ)
    (page : Page) (nc : List Char)
    (hf : ∀ k, fetch k = some page)
    (hm : page.has_more = true) (hc : page.next_cursor = some nc) :
    historyChannelFull fetch replies innerFuel (m + 2) lastTs =
      historyChannel replies innerFuel lastTs page.messages ++
      historyChannel replies innerFuel lastTs page.messages := by
  rw [historyChannelFull]
  simp only [historyOuterLoop, hf 0, hf 1, hm, hc]
  simp

end SlackMod

/- ===== Claim C4 ===== -/

/-- History page content used by the C4 counterexample: a channel whose
remote history arrives newest-first as `ts = 3`, then a thread root
`ts = 2`, then `ts = 1`. -/
def c4pages : List SlackMod.HMsg :=
  [⟨3, none, false⟩, ⟨2, some 2, false⟩, ⟨1, none, false⟩]

/-- Replies used by the C4 counterexample: the thread rooted at `ts = 2`
has one reply at `ts = 10` — newer than the channel message at `ts = 3` —
returned oldest-first (root, then reply), as `conversations.replies` does. -/
def c4replies : ℚ → List SlackMod.HMsg := fun q =>
  if q = 2 then [⟨2, some 2, false⟩, ⟨10, some 2, false⟩] else []

/-- A remote that answers every `get_history` call with the single,
complete page `c4pages` (`has_more` false): the late-reply trace. -/
def c4fetchLate : Nat → Option SlackMod.Page := fun _ =>
  some ⟨c4pages, false, none⟩

/-- A thread-free, strictly descending two-message page that reports
more pages with cursor `"c"`. -/
def c4stuckPage : SlackMod.Page :=
  ⟨[⟨2, none, false⟩, ⟨1, none, false⟩], true, some ['c']⟩

/-- A deterministic remote that answers every `get_history` call with
`c4stuckPage`: the duplicated-page trace. -/
def c4fetchStuck : Nat → Option SlackMod.Page := fun _ => some c4stuckPage

/-- C4 fails as stated, in two independent ways.  First, under exactly
the remote model stated by the claim (history pages newest-first,
replies oldest-first), a reply newer than a later channel message is
replayed out of order: with a complete first response, draining the
queue built by `_history` yields timestamps `1, 2, 10, 3` — not
chronological.  Second, when the first response reports more pages, the
cursor loop — which never passes its cursor to `get_history` — fetches
and processes the same first page a second time before the stuck-cursor
guard breaks, so even a thread-free strictly descending page drains as
`1, 2, 1, 2`: duplicated and not chronological, and any later pages are
never fetched. -/
theorem C4_counterexample :
    ((SlackMod.drainN (fun u : Unit => (none, u))
        (SlackMod.historyChannelFull c4fetchLate c4replies 10 1 0).length
        ⟨SlackMod.historyChannelFull c4fetchLate c4replies 10 1 0, ()⟩).1.map
          SlackMod.HMsg.ts = [1, 2, 10, 3] ∧
      ¬ ((SlackMod.drainN (fun u : Unit => (none, u))
        (SlackMod.historyChannelFull c4fetchLate c4replies 10 1 0).length
        ⟨SlackMod.historyChannelFull c4fetchLate c4replies 10 1 0, ()⟩).1.Pairwise
          (fun a b => a.ts ≤ b.ts)) ∧
      c4pages.Pairwise (fun a b => b.ts < a.ts) ∧
      (c4replies 2).Pairwise (fun a b => a.ts < b.ts)) ∧
    ((SlackMod.drainN (fun u : Unit => (none, u))
        (SlackMod.historyChannelFull c4fetchStuck c4replies 10 5 0).length
        ⟨SlackMod.historyChannelFull c4fetchStuck c4replies 10 5 0, ()⟩).1.map
          SlackMod.HMsg.ts = [1, 2, 1, 2] ∧
      ¬ ((SlackMod.drainN (fun u : Unit => (none, u))
        (SlackMod.historyChannelFull c4fetchStuck c4replies 10 5 0).length
        ⟨SlackMod.historyChannelFull c4fetchStuck c4replies 10 5 0, ()⟩).1.Pairwise
          (fun a b => a.ts ≤ b.ts)) ∧
      c4stuckPage.messages.Pairwise (fun a b => b.ts < a.ts)) := by
  refine ⟨⟨by decide, by decide, by decide, by decide⟩, by decide, by decide, by decide⟩

/-- C4 amended: every call to `event()` with a non-empty internal queue
returns a queued event (the last appended) without reading the
websocket.  `_history`'s cursor loop never passes its cursor to
`get_history`, so only the first response is ever obtained.  When that
response is complete (`has_more` false or no `response_metadata`), the
messages it queues for the channel are returned by successive `event()`
calls in chronological order, oldest first, under the remote model
strengthened with the condition the claim is missing: each thread's
replies must also be older than every channel message newer than the
thread root.  When the response instead reports more pages, a
deterministic remote hands the loop the very same page again and it is
processed a second time before the stuck-cursor guard breaks: the
replay duplicates the first page and later pages are never fetched. -/
theorem C4_event_queue_amended {σ : Type}
    (readSocket : σ → Option SlackMod.HMsg × σ) (sock : σ)
    (replies : ℚ → List SlackMod.HMsg) (fetch : Nat → Option SlackMod.Page)
    (page : SlackMod.Page) (lastTs : ℚ) (innerFuel n : Nat)
    (hf : fetch 0 = some page)
    (hstop : page.has_more = false ∨ page.next_cursor = none)
    (hfuel : SlackMod.histSize replies page.messages ≤ innerFuel)
    (hgood : SlackMod.GoodList replies page.messages) :
    (∀ s : SlackMod.EvState SlackMod.HMsg σ, s.internalevents ≠ [] →
        (SlackMod.eventPoll readSocket s).2.socket = s.socket ∧
        (SlackMod.eventPoll readSocket s).1 = s.internalevents.getLast?) ∧
    ((SlackMod.drainN readSocket
        (SlackMod.historyChannelFull fetch replies innerFuel (n + 1) lastTs).length
        ⟨SlackMod.historyChannelFull fetch replies innerFuel (n + 1) lastTs, sock⟩).1 =
      (SlackMod.historyChannel replies innerFuel lastTs page.messages).reverse ∧
    ((SlackMod.historyChannel replies innerFuel lastTs page.messages).reverse).Pairwise
      (fun a b => a.ts ≤ b.ts)) ∧
    (∀ (fetch2 : Nat → Option SlackMod.Page) (page2 : SlackMod.Page)
        (nc : List Char) (m : Nat),
        (∀ k, fetch2 k = some page2) → page2.has_more = true →
        page2.next_cursor = some nc →
        SlackMod.historyChannelFull fetch2 replies innerFuel (m + 2) lastTs =
          SlackMod.historyChannel replies innerFuel lastTs page2.messages ++
          SlackMod.historyChannel replies innerFuel lastTs page2.messages) := by
  have hsingle :=
    SlackMod.historyChannelFull_single fetch replies innerFuel n lastTs page hf hstop
  refine ⟨?_, ?_, ?_⟩
  · intro s hs
    exact ⟨(SlackMod.eventPoll_queue_first readSocket s hs).1,
      (SlackMod.eventPoll_queue_first readSocket s hs).2.1⟩
  · rw [hsingle, SlackMod.drainN_reverse]
    refine ⟨rfl, ?_⟩
    rw [List.pairwise_reverse]
    exact ((SlackMod.historyChannel_sorted replies innerFuel page.messages lastTs
      hfuel hgood).1).imp (fun h => le_of_lt h)
  · intro fetch2 page2 nc m h1 h2 h3
    exact SlackMod.historyChannelFull_stuck fetch2 replies innerFuel m lastTs
      page2 nc h1 h2 h3

/-- Page content for the C4 witness. -/
def c4wpages : List SlackMod.HMsg :=
  [⟨2, some 2, false⟩, ⟨1, none, false⟩]

/-- Replies for the C4 witness. -/
def c4wreplies : ℚ → List SlackMod.HMsg := fun q =>
  if q = 2 then [⟨2, some 2, false⟩] else []

/-- The complete response for the C4 witness. -/
def c4wpage : SlackMod.Page := ⟨c4wpages, false, none⟩

/-- The remote for the C4 witness. -/
def c4wfetch : Nat → Option SlackMod.Page := fun _ => some c4wpage

/-- Witness for C4 amended at a concrete input. -/
theorem C4_event_queue_amended_witness :
    (∀ s : SlackMod.EvState SlackMod.HMsg Unit, s.internalevents ≠ [] →
        (SlackMod.eventPoll (fun u : Unit => (none, u)) s).2.socket = s.socket ∧
        (SlackMod.eventPoll (fun u : Unit => (none, u)) s).1 =
          s.internalevents.getLast?) ∧
    ((SlackMod.drainN (fun u : Unit => (none, u))
        (SlackMod.historyChannelFull c4wfetch c4wreplies 5 (0 + 1) 0).length
        ⟨SlackMod.historyChannelFull c4wfetch c4wreplies 5 (0 + 1) 0, ()⟩).1 =
      (SlackMod.historyChannel c4wreplies 5 0 c4wpage.messages).reverse ∧
    ((SlackMod.historyChannel c4wreplies 5 0 c4wpage.messages).reverse).Pairwise
      (fun a b => a.ts ≤ b.ts)) ∧
    (∀ (fetch2 : Nat → Option SlackMod.Page) (page2 : SlackMod.Page)
        (nc : List Char) (m : Nat),
        (∀ k, fetch2 k = some page2) → page2.has_more = true →
        page2.next_cursor = some nc →
        SlackMod.historyChannelFull fetch2 c4wreplies 5 (m + 2) 0 =
          SlackMod.historyChannel c4wreplies 5 0 page2.messages ++
          SlackMod.historyChannel c4wreplies 5 0 page2.messages) :=
  C4_event_queue_amended (fun u : Unit => (none, u)) () c4wreplies c4wfetch
    c4wpage 0 5 0 rfl (Or.inl rfl) (by decide)
    (by unfold SlackMod.GoodList; decide)

namespace Http

/- ===== slackclient/http.py ===== -/

/-- The ways sending on a pooled connection can fail: the connection was
closed (`BrokenPipeError`), reset (`ConnectionResetError`) or hit an
unexpected EOF.  No `TransportError` exists anywhere in the source. -/
inductive SendErr
  | brokenPipe
  | connReset
  | unexpectedEOF
deriving DecidableEq, Repr

/-- The connection pool of `Request` (slackclient/http.py lines 87,
93–113), restricted to one task key: an optional cached connection; fresh
connections are numbered by `nextConn`. -/
structure Pool where
  cached : Option Nat
  nextConn : Nat
deriving DecidableEq, Repr

/-- Embedding of `Request._connect`: return the cached connection, unless
`clear_cache` is set or none is cached, in which case close any cached one
and open (and cache) a fresh connection. -/
def connect (clear_cache : Bool) (p : Pool) : Nat × Pool :=
  match p.cached with
  | some c =>
      if clear_cache then (p.nextConn, ⟨some p.nextConn, p.nextConn + 1⟩)
      else (c, p)
  | none => (p.nextConn, ⟨some p.nextConn, p.nextConn + 1⟩)

/-- Embedding of the send loop of `Request.post`
(slackclient/http.py lines 137–147):

```
for i in range(2):
    reader, writer = await self._connect(clear_cache=bool(i))
    try:
        writer.write(req); writer.write(post_data); await writer.drain()
        break
    except BrokenPipeError:
        if i != 0:
            raise
```

`sendOn c` is the outcome of attempting the send on connection `c`.  Only
`BrokenPipeError` is caught, and only on the first attempt; any other
failure propagates at once, and a `BrokenPipeError` on the retry is
re-raised as is.  On success the connection that carried the request and
the pool are returned. -/
def postSend (sendOn : Nat → Except SendErr Unit) (p : Pool) :
    Except SendErr (Nat × Pool) :=
  let c0 := connect false p
  match sendOn c0.1 with
  | .ok _ => .ok c0
  | .error .brokenPipe =>
      let c1 := connect true c0.2
      (match sendOn c1.1 with
       | .ok _ => .ok c1
       | .error e => .error e)
  | .error .connReset => .error .connReset
  | .error .unexpectedEOF => .error .unexpectedEOF

theorem connect_fresh (p : Pool) : (connect true p).1 = p.nextConn := by
  rw [connect]
  rcases p.cached with _ | c
  · rfl
  · rfl

end Http

/- ===== Claim C9 ===== -/

/-- Send behaviour for the C9 counterexample: the pooled connection `0`
fails with a connection reset; a fresh connection would succeed. -/
def c9sendReset : Nat → Except Http.SendErr Unit := fun c =>
  if c = 0 then .error .connReset else .ok ()

/-- Send behaviour where every attempt hits a broken pipe. -/
def c9sendPipe : Nat → Except Http.SendErr Unit := fun _ => .error .brokenPipe

/-- C9 fails as stated: a reset on the pooled connection is NOT retried —
only `BrokenPipeError` is caught — so the request fails at once even
though a fresh connection would have succeeded; and when both attempts
fail the call fails with the second `BrokenPipeError` itself: no
`TransportError` exists in the source. -/
theorem C9_counterexample :
    Http.postSend c9sendReset ⟨some 0, 1⟩ = .error .connReset ∧
    Http.postSend c9sendPipe ⟨some 0, 1⟩ = .error .brokenPipe :=
  ⟨rfl, rfl⟩

/-- C9 amended: the silent reconnect-and-retry happens exactly once and
only on `BrokenPipeError`: a first send that succeeds uses the pooled
connection and no retry; a first failure other than broken pipe propagates
immediately; a broken pipe triggers one retry on a freshly opened
connection, whose own outcome — success, or any error including a second
`BrokenPipeError` — is final (there is no `TransportError`). -/
theorem C9_post_retry_amended (sendOn : Nat → Except Http.SendErr Unit)
    (p : Http.Pool) :
    (sendOn (Http.connect false p).1 = .ok () →
      Http.postSend sendOn p = .ok (Http.connect false p)) ∧
    (∀ e, e ≠ Http.SendErr.brokenPipe →
      sendOn (Http.connect false p).1 = .error e →
      Http.postSend sendOn p = .error e) ∧
    (sendOn (Http.connect false p).1 = .error .brokenPipe →
      (Http.connect true (Http.connect false p).2).1 =
        (Http.connect false p).2.nextConn ∧
      (sendOn (Http.connect true (Http.connect false p).2).1 = .ok () →
        Http.postSend sendOn p = .ok (Http.connect true (Http.connect false p).2)) ∧
      (∀ e, sendOn (Http.connect true (Http.connect false p).2).1 = .error e →
        Http.postSend sendOn p = .error e)) := by
  refine ⟨?_, ?_, ?_⟩
  · intro h
    simp only [Http.postSend, h]
  · intro e he h
    cases e with
    | brokenPipe => exact absurd rfl he
    | connReset => simp only [Http.postSend, h]
    | unexpectedEOF => simp only [Http.postSend, h]
  · intro h
    refine ⟨Http.connect_fresh _, ?_, ?_⟩
    · intro h2
      simp only [Http.postSend, h, h2]
    · intro e h2
      cases e <;> simp only [Http.postSend, h, h2]

/-- Witness for C9 amended at a concrete input. -/
theorem C9_post_retry_amended_witness :
    Http.postSend (fun _ => Except.ok ()) ⟨some 0, 1⟩ =
      .ok (Http.connect false ⟨some 0, 1⟩) :=
  (C9_post_retry_amended (fun _ => Except.ok ()) ⟨some 0, 1⟩).1 rfl

namespace Irc

/- ===== irc.py: registration gate and held events (claim C2) ===== -/

/-- The part of `Client` state governing the registration gate
(irc.py lines 127–128): `_usersent` starts false and `_held_events`
empty. -/
structure HeldState (ev : Type) where
  usersent : Bool
  held : List ev

/-- Embedding of `Client.slack_event` (irc.py lines 781–813): while
`_usersent` is false every event is appended to `_held_events` and nothing
is written to the client; afterwards the event is dispatched to its
renderer at once.  The rendering of one event (the dispatch to `_message`,
`_messageedit`, `_joined_parted`, …) is the external parameter `render`,
giving the lines it writes. -/
def slack_event {ev line : Type} (render : ev → List line)
    (s : HeldState ev) (e : ev) : HeldState ev × List line :=
  if s.usersent then (s, render e)
  else ({s with held := s.held ++ [e]}, [])

/-- The drain loop at the end of `Client._userhandler`
(irc.py lines 203–204): `for ev in self._held_events: await
self.slack_event(ev)` — run after `_usersent` has been set. -/
def drainLoop {ev line : Type} (render : ev → List line) :
    HeldState ev → List ev → HeldState ev × List line
  | s, [] => (s, [])
  | s, e :: rest =>
      let p := slack_event render s e
      let q := drainLoop render p.1 rest
      (q.1, p.2 ++ q.2)

/-- Embedding of `Client._userhandler` (irc.py lines 165–205): write the
welcome replies (001, 002 ×3, version, LUSERCLIENT), then the autojoin
output (abstracted as `autojoin`; empty when autojoin is off), then set
`_usersent`, replay the held events in order, and clear the held list. -/
def userhandler {ev line : Type} (render : ev → List line)
    (welcome autojoin : List line) (s : HeldState ev) :
    HeldState ev × List line :=
  let d := drainLoop render {s with usersent := true} s.held
  ({d.1 with held := []}, welcome ++ autojoin ++ d.2)

/-- One inbound item of a session: the completing `USER` command, or a
chat event delivered by the event pump. -/
inductive Input (ev : Type)
  | user
  | chat (e : ev)

/-- A session: the inputs processed in order from a given state,
collecting all written lines. -/
def runClient {ev line : Type} (render : ev → List line)
    (welcome autojoin : List line) :
    HeldState ev → List (Input ev) → HeldState ev × List line
  | s, [] => (s, [])
  | s, .user :: rest =>
      let p := userhandler render welcome autojoin s
      let q := runClient render welcome autojoin p.1 rest
      (q.1, p.2 ++ q.2)
  | s, .chat e :: rest =>
      let p := slack_event render s e
      let q := runClient render welcome autojoin p.1 rest
      (q.1, p.2 ++ q.2)

/-- A fresh client: unregistered, with no held events. -/
def initState (ev : Type) : HeldState ev := ⟨false, []⟩

theorem runClient_append {ev line : Type} (render : ev → List line)
    (welcome autojoin : List line) :
    ∀ (l₁ l₂ : List (Input ev)) (s : HeldState ev),
      runClient render welcome autojoin s (l₁ ++ l₂) =
        ((runClient render welcome autojoin
            (runClient render welcome autojoin s l₁).1 l₂).1,
         (runClient render welcome autojoin s l₁).2 ++
           (runClient render welcome autojoin
             (runClient render welcome autojoin s l₁).1 l₂).2) := by
  intro l₁
  induction l₁ with
  | nil => intro l₂ s; simp [runClient]
  | cons i rest ih =>
      intro l₂ s
      cases i with
      | user =>
          simp only [List.cons_append, runClient]
          simp only [List.append_eq]
          rw [ih]
          simp [List.append_assoc]
      | chat e =>
          simp only [List.cons_append, runClient]
          simp only [List.append_eq]
          rw [ih]
          simp [List.append_assoc]

theorem runClient_held {ev line : Type} (render : ev → List line)
    (welcome autojoin : List line) :
    ∀ (evs : List ev) (s : HeldState ev), s.usersent = false →
      runClient render welcome autojoin s (evs.map Input.chat) =
        ({s with held := s.held ++ evs}, []) := by
  intro evs
  induction evs with
  | nil => intro s h; simp [runClient]
  | cons e rest ih =>
      intro s h
      simp only [List.map_cons, runClient, slack_event, h]
      simp only [Bool.false_eq_true, if_false]
      rw [ih _ (by simp [h])]
      simp

theorem drainLoop_sent {ev line : Type} (render : ev → List line) :
    ∀ (evs : List ev) (s : HeldState ev), s.usersent = true →
      drainLoop render s evs = (s, evs.flatMap render) := by
  intro evs
  induction evs with
  | nil => intro s h; simp [drainLoop]
  | cons e rest ih =>
      intro s h
      simp only [drainLoop, slack_event, h, if_true]
      rw [ih s h]
      simp

theorem runClient_sent {ev line : Type} (render : ev → List line)
    (welcome autojoin : List line) :
    ∀ (evs : List ev) (s : HeldState ev), s.usersent = true →
      runClient render welcome autojoin s (evs.map Input.chat) =
        (s, evs.flatMap render) := by
  intro evs
  induction evs with
  | nil => intro s h; simp [runClient]
  | cons e rest ih =>
      intro s h
      simp only [List.map_cons, runClient, slack_event, h, if_true]
      rw [ih s h]
      simp

end Irc

/- ===== Claim C2 ===== -/

/-- C2: before registration completes no chat event is rendered — each is
appended to the held-events list — and when the USER command is processed
the welcome replies (and autojoin output) are written first, then the held
events are replayed in arrival order, before any subsequently received
chat event is rendered.  The whole session output is exactly
`welcome ++ autojoin ++ renders(pre) ++ renders(post)`, and the prefix
before USER writes nothing. -/
theorem C2_registration_gate {ev line : Type} (render : ev → List line)
    (welcome autojoin : List line) (pre post : List ev) :
    Irc.runClient render welcome autojoin (Irc.initState ev)
        (pre.map Irc.Input.chat ++ [Irc.Input.user] ++ post.map Irc.Input.chat) =
      (⟨true, []⟩,
        welcome ++ autojoin ++ pre.flatMap render ++ post.flatMap render) ∧
    (Irc.runClient render welcome autojoin (Irc.initState ev)
        (pre.map Irc.Input.chat)).2 = [] := by
  have hpre := Irc.runClient_held render welcome autojoin pre
    (Irc.initState ev) rfl
  constructor
  · rw [show pre.map Irc.Input.chat ++ [Irc.Input.user] ++ post.map Irc.Input.chat
        = pre.map Irc.Input.chat ++ ([Irc.Input.user] ++ post.map Irc.Input.chat)
      from by simp [List.append_assoc]]
    rw [Irc.runClient_append, hpre]
    have hheld : ({ Irc.initState ev with
        held := (Irc.initState ev).held ++ pre } : Irc.HeldState ev) =
        ⟨false, pre⟩ := by
      simp [Irc.initState]
    rw [hheld]
    have huser : Irc.runClient render welcome autojoin (⟨false, pre⟩ : Irc.HeldState ev)
        ([Irc.Input.user] ++ post.map Irc.Input.chat) =
        (⟨true, []⟩, (welcome ++ autojoin ++ pre.flatMap render) ++ post.flatMap render) := by
      simp [Irc.runClient, Irc.userhandler, Irc.drainLoop_sent, Irc.runClient_sent,
        List.append_assoc]
    rw [huser]
    simp [List.append_assoc]
  · rw [hpre]

namespace Irc

/- ===== irc.py: thread synthesis in Client._message (claim C5) ===== -/

/-- The IRC lines relevant to thread synthesis: the JOIN/TOPIC/NAMES block
written by `_send_chan_info` (irc.py lines 237–265) and the PRIVMSG lines
written by `sendmsg`. -/
inductive Out
  | join (dest : List Char)
  | topic (dest : List Char)
  | names (dest : List Char)
  | endOfNames (dest : List Char)
  | privmsg (source dest line : List Char)
deriving DecidableEq, Repr

/-- The block `_send_chan_info` writes: the JOIN line, RPL_TOPIC,
RPL_NAMREPLY and RPL_ENDOFNAMES. -/
def chanInfoLines (dest : List Char) : List Out :=
  [.join dest, .topic dest, .names dest, .endOfNames dest]

/-- The `Client` state thread synthesis reads and writes:
`parted_channels` and the keys of `known_threads` (the stored
`MessageThread` value only matters through its name here). -/
structure ThreadSt where
  parted : List (List Char)
  knownThreads : List (List Char)
deriving DecidableEq, Repr

/-- A chat message as `_message` consumes it: channel id (its resolved
name is a separate argument below), text, optional thread timestamp, and
the `ACTION` flag.  File attachments only append lines to the text and are
orthogonal to the join/suppression logic modelled here. -/
structure Msg where
  text : List Char
  thread_ts : Option (List Char) := none
  action : Bool := false
deriving DecidableEq, Repr

/-- `Client.get_mention_str` (irc.py lines 132–136): `<@<self-id>>`. -/
def mentionStr (selfId : List Char) : List Char :=
  '<' :: '@' :: (selfId ++ ['>'])

/-- The `\x01ACTION …\x01` wrapping for me-messages. -/
def actionWrap (line : List Char) : List Char :=
  '\x01' :: 'A' :: 'C' :: 'T' :: 'I' :: 'O' :: 'N' :: ' ' :: (line ++ ['\x01'])

/-- The PRIVMSG lines of `_message` (irc.py lines 744–754): the rendered
text is split on newlines, empty lines are skipped, and each line is sent
— wrapped as an ACTION if the event is an `ActionMessage`. -/
def privLines (render : List Char → List Char) (src : List Char) (ev : Msg)
    (dest : List Char) : List Out :=
  ((render ev.text).splitOn '\n').filterMap fun line =>
    if line = [] then none
    else some (.privmsg src dest (if ev.action then actionWrap line else line))

/-- Embedding of `Client._message` (irc.py lines 687–754) for an event
whose channel resolves to `chanName` (so `dest = #chanName`).  `render` is
`parse_message`; `src` the sender's handle; `selfId` the workspace self
id; `noRejoin` the `no_rejoin_on_mention` setting.

For a threaded message the destination is rewritten to the synthetic
channel `#t-<chanName>-<thread_ts>`; if that channel is in the parted set
the event is dropped unless the text mentions the user, which removes it
from the parted set; if the channel is not yet known, a new thread from a
parted original channel is dropped (unless mentioned), otherwise the
JOIN/TOPIC/NAMES block is written and the thread recorded in
`known_threads`; finally the PRIVMSG lines are written.  For an unthreaded
message on a parted channel, a mention re-emits the channel info block
(the source leaves the parted set unchanged there) and otherwise the event
is dropped. -/
def message (render : List Char → List Char) (src selfId : List Char)
    (noRejoin : Bool) (chanName : List Char) (s : ThreadSt) (ev : Msg) :
    ThreadSt × List Out :=
  let dest0 : List Char := '#' :: chanName
  let mentioned : Bool := !noRejoin && decide (mentionStr selfId <:+: ev.text)
  match ev.thread_ts with
  | some tts =>
      let dest : List Char := '#' :: 't' :: '-' :: (chanName ++ '-' :: tts)
      let afterParted : ThreadSt → ThreadSt × List Out := fun s1 =>
        if dest ∈ s1.knownThreads then (s1, privLines render src ev dest)
        else
          if dest0 ∈ s1.parted ∧ mentioned = false then (s1, [])
          else ({s1 with knownThreads := s1.knownThreads ++ [dest]},
                chanInfoLines dest ++ privLines render src ev dest)
      if dest ∈ s.parted then
        if mentioned then afterParted {s with parted := s.parted.erase dest}
        else (s, [])
      else afterParted s
  | none =>
      if dest0 ∈ s.parted then
        if mentioned then (s, chanInfoLines dest0 ++ privLines render src ev dest0)
        else (s, [])
      else (s, privLines render src ev dest0)

/-- Embedding of `Client._parthandler` (irc.py lines 389–393): add the
name to the parted set; drop it from `known_threads` if it was a synthetic
thread channel. -/
def parthandler (s : ThreadSt) (name : List Char) : ThreadSt :=
  ⟨s.parted.insert name, s.knownThreads.erase name⟩

end Irc

/- ===== Claim C5 ===== -/

/-- C5: for a channel and a fixed `thread_ts` (with default settings,
`no_rejoin_on_mention = false`, the thread channel not ignored and the
parent channel not parted): (1) the first delivered message of the thread
emits the JOIN/TOPIC/NAMES block for `#t-<chanName>-<thread_ts>`, records
it in `known_threads`, and then emits the PRIVMSG lines; (2) a later
message of the same thread emits only the PRIVMSG lines; (3) after a PART
of the synthetic channel a message that does not mention `<@self-id>`
produces no output at all; (4) a message that does mention `<@self-id>`
removes the synthetic channel from the parted set, re-emits the
JOIN/TOPIC/NAMES block, re-records the thread and emits its PRIVMSG
lines. -/
theorem C5_thread_synthesis (render : List Char → List Char)
    (src selfId chanName tts dest : List Char) (ev evM : Irc.Msg)
    (hdest : dest = '#' :: 't' :: '-' :: (chanName ++ '-' :: tts))
    (hts : ev.thread_ts = some tts) (htsM : evM.thread_ts = some tts)
    (hnm : ¬ (Irc.mentionStr selfId <:+: ev.text))
    (hm : Irc.mentionStr selfId <:+: evM.text)
    (s : Irc.ThreadSt)
    (h1 : dest ∉ s.parted) (h2 : dest ∉ s.knownThreads)
    (h3 : ('#' :: chanName) ∉ s.parted) :
    Irc.message render src selfId false chanName s ev =
      ({s with knownThreads := s.knownThreads ++ [dest]},
        Irc.chanInfoLines dest ++ Irc.privLines render src ev dest) ∧
    Irc.message render src selfId false chanName
        {s with knownThreads := s.knownThreads ++ [dest]} ev =
      ({s with knownThreads := s.knownThreads ++ [dest]},
        Irc.privLines render src ev dest) ∧
    Irc.message render src selfId false chanName
        (Irc.parthandler {s with knownThreads := s.knownThreads ++ [dest]} dest) ev =
      (Irc.parthandler {s with knownThreads := s.knownThreads ++ [dest]} dest, []) ∧
    Irc.message render src selfId false chanName
        (Irc.parthandler {s with knownThreads := s.knownThreads ++ [dest]} dest) evM =
      ({s with knownThreads := s.knownThreads ++ [dest]},
        Irc.chanInfoLines dest ++ Irc.privLines render src evM dest) := by
  subst hdest
  have hinsert : s.parted.insert ('#' :: 't' :: '-' :: (chanName ++ '-' :: tts)) =
      ('#' :: 't' :: '-' :: (chanName ++ '-' :: tts)) :: s.parted :=
    List.insert_of_not_mem h1
  have herase : (s.knownThreads ++
      [('#' :: 't' :: '-' :: (chanName ++ '-' :: tts))]).erase
        ('#' :: 't' :: '-' :: (chanName ++ '-' :: tts)) = s.knownThreads := by
    rw [List.erase_append_right _ h2, List.erase_cons_head, List.append_nil]
  refine ⟨?_, ?_, ?_, ?_⟩
  · simp [Irc.message, hts, h1, h2, h3, hnm]
  · simp [Irc.message, hts, h1, h2, h3, hnm]
  · simp [Irc.message, Irc.parthandler, hts, hinsert, hnm]
  · simp [Irc.message, Irc.parthandler, htsM, hinsert, herase, h1, h2, h3, hm,
      List.erase_cons_head]

/-- Witness for C5 at a concrete input. -/
theorem C5_thread_synthesis_witness :
    Irc.message id ['u'] ['U'] false ['c'] ⟨[], []⟩ ⟨['h', 'i'], some ['7'], false⟩ =
      (⟨[], [['#', 't', '-', 'c', '-', '7']]⟩,
        Irc.chanInfoLines ['#', 't', '-', 'c', '-', '7'] ++
          Irc.privLines id ['u'] ⟨['h', 'i'], some ['7'], false⟩
            ['#', 't', '-', 'c', '-', '7']) ∧
    Irc.message id ['u'] ['U'] false ['c']
        ⟨[], [['#', 't', '-', 'c', '-', '7']]⟩ ⟨['h', 'i'], some ['7'], false⟩ =
      (⟨[], [['#', 't', '-', 'c', '-', '7']]⟩,
        Irc.privLines id ['u'] ⟨['h', 'i'], some ['7'], false⟩
          ['#', 't', '-', 'c', '-', '7']) ∧
    Irc.message id ['u'] ['U'] false ['c']
        (Irc.parthandler ⟨[], [['#', 't', '-', 'c', '-', '7']]⟩
          ['#', 't', '-', 'c', '-', '7']) ⟨['h', 'i'], some ['7'], false⟩ =
      (Irc.parthandler ⟨[], [['#', 't', '-', 'c', '-', '7']]⟩
        ['#', 't', '-', 'c', '-', '7'], []) ∧
    Irc.message id ['u'] ['U'] false ['c']
        (Irc.parthandler ⟨[], [['#', 't', '-', 'c', '-', '7']]⟩
          ['#', 't', '-', 'c', '-', '7'])
        ⟨'<' :: '@' :: 'U' :: '>' :: ['h'], some ['7'], false⟩ =
      (⟨[], [['#', 't', '-', 'c', '-', '7']]⟩,
        Irc.chanInfoLines ['#', 't', '-', 'c', '-', '7'] ++
          Irc.privLines id ['u'] ⟨'<' :: '@' :: 'U' :: '>' :: ['h'], some ['7'], false⟩
            ['#', 't', '-', 'c', '-', '7']) := by
  have h := C5_thread_synthesis id ['u'] ['U'] ['c'] ['7']
    ['#', 't', '-', 'c', '-', '7'] ⟨['h', 'i'], some ['7'], false⟩
    ⟨'<' :: '@' :: 'U' :: '>' :: ['h'], some ['7'], false⟩
    (by decide) rfl rfl (by decide) (by decide) ⟨[], []⟩
    (by decide) (by decide) (by decide)
  exact h

namespace Irc

/- ===== slack.py user caches and irc.py send path (claim C10) ===== -/

/-- A user record (slack.py `User`), reduced to the fields the lookups
read: id and handle. -/
structure User where
  id : List Char
  name : List Char
deriving DecidableEq, Repr

/-- The two user caches of `Slack` (slack.py lines 376–377): `_usercache`
by id and `_usermapcache` by handle, modelled as association lists where a
new entry shadows an older one (dict assignment). -/
structure UserCaches where
  usercache : List (List Char × User)
  usermapcache : List (List Char × User)
deriving DecidableEq, Repr

/-- A fresh `Slack` object: both caches empty. -/
def emptyCaches : UserCaches := ⟨[], []⟩

/-- One `users.list` entry stored by `prefetch_users`
(slack.py lines 863–865): both caches are written. -/
def storeUser (s : UserCaches) (u : User) : UserCaches :=
  ⟨(u.id, u) :: s.usercache, (u.name, u) :: s.usermapcache⟩

/-- The remote API calls the user-cache operations can make. -/
inductive ApiCall
  | usersList
  | usersInfo (id : List Char)
deriving DecidableEq, Repr

/-- The cache-touching operations: `prefetch_users` with the `users.list`
response, and `get_user id` with the `users.info` response (`none` when
the remote answers not-ok). -/
inductive CacheOp
  | prefetch (apiUsers : List User)
  | getUser (id : List Char) (resp : Option User)
deriving DecidableEq, Repr

/-- State effect of one operation.  `prefetch_users` stores every member
of the response in both caches; `get_user` (slack.py lines 867–884)
returns the cached user without any call when the id is cached, otherwise
calls `users.info` and on success stores the user under the requested id
and under its handle; a not-ok response raises `KeyError` and stores
nothing. -/
def applyCacheOp (s : UserCaches) : CacheOp → UserCaches
  | .prefetch users => users.foldl storeUser s
  | .getUser id resp =>
      match s.usercache.lookup id with
      | some _ => s
      | none =>
          match resp with
          | some u => ⟨(id, u) :: s.usercache, (u.name, u) :: s.usermapcache⟩
          | none => s

/-- The remote calls one operation makes. -/
def cacheOpCalls (s : UserCaches) : CacheOp → List ApiCall
  | .prefetch _ => [.usersList]
  | .getUser id _ =>
      match s.usercache.lookup id with
      | some _ => []
      | none => [.usersInfo id]

/-- A session's cache operations applied in order. -/
def runCacheOps : UserCaches → List CacheOp → UserCaches
  | s, [] => s
  | s, op :: rest => runCacheOps (applyCacheOp s op) rest

/-- Embedding of `Slack.get_user_by_name` (slack.py lines 853–854):
`return self._usermapcache[name]` — a plain dictionary lookup that raises
`KeyError` on a missing handle.  The second component is the list of
remote API calls made: none, ever. -/
def get_user_by_name (s : UserCaches) (name : List Char) :
    Except Unit User × List ApiCall :=
  (match s.usermapcache.lookup name with
   | some u => .ok u
   | none => .error (), [])

/-- Whether an operation would store the handle `name`. -/
def canStore (name : List Char) : CacheOp → Bool
  | .prefetch users => users.any fun u => u.name = name
  | .getUser _ resp =>
      match resp with
      | some u => u.name = name
      | none => false

/-- The message-send effect of `send_slack_message`. -/
inductive SendEffect
  | noSend
  | toUser (u : User)
  | toChannel (c : List Char)
deriving DecidableEq, Repr

/-- The error replies `send_slack_message` can write. -/
inductive Reply
  | errNoSuchChannel (dest : List Char)
  | errNoSuchNick (dest : List Char)
deriving DecidableEq, Repr

/-- Embedding of the destination resolution of `Client.send_slack_message`
(irc.py lines 282–313): a known thread is sent to directly; a `#`-prefixed
name resolves a channel (`KeyError` → ERR_NOSUCHCHANNEL and no send); any
other name goes through `get_user_by_name`
(`KeyError` → ERR_NOSUCHNICK and no send). -/
def send_slack_message (knownThreads : List (List Char))
    (channels : List Char → Option (List Char))
    (s : UserCaches) (dest : List Char) : List Reply × SendEffect :=
  if dest ∈ knownThreads then ([], .toChannel dest)
  else if dest.head? = some '#' then
    match channels (dest.drop 1) with
    | some c => ([], .toChannel c)
    | none => ([.errNoSuchChannel dest], .noSend)
  else
    match (get_user_by_name s dest).1 with
    | .ok u => ([], .toUser u)
    | .error _ => ([.errNoSuchNick dest], .noSend)

theorem lookup_cons_self {v : User} {k : List Char}
    {m : List (List Char × User)} : ((k, v) :: m).lookup k = some v := by
  simp [List.lookup]

theorem lookup_cons_ne {v : User} {k k' : List Char}
    {m : List (List Char × User)} (h : k' ≠ k) :
    ((k', v) :: m).lookup k = m.lookup k := by
  have hb : (k == k') = false := beq_eq_false_iff_ne.mpr fun he => h he.symm
  simp [List.lookup, hb]

theorem foldl_store_lookup_none (name : List Char) :
    ∀ (users : List User) (s : UserCaches),
      (users.any fun u => u.name = name) = false →
      ((users.foldl storeUser s).usermapcache.lookup name) =
        s.usermapcache.lookup name := by
  intro users
  induction users with
  | nil => intro s _; rfl
  | cons u rest ih =>
      intro s h
      simp only [List.any_cons, Bool.or_eq_false_iff] at h
      rw [List.foldl_cons, ih _ h.2]
      exact lookup_cons_ne (by simpa using h.1)

theorem applyCacheOp_lookup_none {name : List Char} {s : UserCaches}
    {op : CacheOp} (h : s.usermapcache.lookup name = none)
    (hstore : canStore name op = false) :
    (applyCacheOp s op).usermapcache.lookup name = none := by
  cases op with
  | prefetch users =>
      show ((users.foldl storeUser s).usermapcache.lookup name) = none
      rw [foldl_store_lookup_none name users s hstore, h]
  | getUser id resp =>
      simp only [applyCacheOp]
      split
      · exact h
      · cases resp with
        | some u =>
            have hne : u.name ≠ name := by
              simp [canStore] at hstore
              exact hstore
            show (((u.name, u) :: s.usermapcache).lookup name) = none
            rw [lookup_cons_ne hne]
            exact h
        | none => exact h

theorem runCacheOps_lookup_none (name : List Char) :
    ∀ (ops : List CacheOp) (s : UserCaches),
      s.usermapcache.lookup name = none →
      (∀ op ∈ ops, canStore name op = false) →
      (runCacheOps s ops).usermapcache.lookup name = none := by
  intro ops
  induction ops with
  | nil => intro s h _; exact h
  | cons op rest ih =>
      intro s h hall
      rw [runCacheOps]
      exact ih _ (applyCacheOp_lookup_none h (hall op (List.mem_cons_self op rest)))
        fun o ho => hall o (List.mem_cons_of_mem op ho)

theorem lookup_cons_isSome {v : User} {k k' : List Char}
    {m : List (List Char × User)} (h : (m.lookup k).isSome) :
    (((k', v) :: m).lookup k).isSome := by
  by_cases hk : k' = k
  · subst hk
    rw [lookup_cons_self]
    rfl
  · rw [lookup_cons_ne hk]
    exact h

theorem foldl_store_isSome (name : List Char) :
    ∀ (users : List User) (s : UserCaches),
      (s.usermapcache.lookup name).isSome →
      (((users.foldl storeUser s).usermapcache.lookup name)).isSome := by
  intro users
  induction users with
  | nil => intro s h; exact h
  | cons u rest ih =>
      intro s h
      rw [List.foldl_cons]
      exact ih _ (lookup_cons_isSome h)

theorem applyCacheOp_persists {name : List Char} (s : UserCaches) (op : CacheOp)
    (h : (s.usermapcache.lookup name).isSome) :
    ((applyCacheOp s op).usermapcache.lookup name).isSome := by
  cases op with
  | prefetch users => exact foldl_store_isSome name users s h
  | getUser id resp =>
      simp only [applyCacheOp]
      split
      · exact h
      · cases resp with
        | some u => exact lookup_cons_isSome h
        | none => exact h

end Irc

/- ===== Claim C10 ===== -/

/-- C10: `get_user_by_name` never performs a remote API call — it is a
plain `_usermapcache` lookup that returns the cached user for a stored
handle and raises `KeyError` otherwise; a handle once cached persists
across any later operation; after any session whose operations never
stored a given handle the lookup raises `KeyError` regardless of who
exists in the workspace; and consequently a PRIVMSG addressed to such a
handle (not a known thread, not a `#` channel) is answered with
ERR_NOSUCHNICK and nothing is sent. -/
theorem C10_get_user_by_name_cached (s : Irc.UserCaches) (name : List Char)
    (ops : List Irc.CacheOp) (channels : List Char → Option (List Char))
    (knownThreads : List (List Char)) (dest : List Char) :
    (Irc.get_user_by_name s name).2 = [] ∧
    (∀ u, (Irc.get_user_by_name s name).1 = .ok u ↔
      s.usermapcache.lookup name = some u) ∧
    (∀ op, (s.usermapcache.lookup name).isSome →
      ((Irc.applyCacheOp s op).usermapcache.lookup name).isSome) ∧
    ((∀ op ∈ ops, Irc.canStore name op = false) →
      (Irc.get_user_by_name (Irc.runCacheOps Irc.emptyCaches ops) name).1 =
        .error ()) ∧
    (dest ∉ knownThreads → dest.head? ≠ some '#' →
      (∀ op ∈ ops, Irc.canStore dest op = false) →
      Irc.send_slack_message knownThreads channels
          (Irc.runCacheOps Irc.emptyCaches ops) dest =
        ([.errNoSuchNick dest], .noSend)) := by
  have hlookup : ∀ (ops : List Irc.CacheOp) (nm : List Char),
      (∀ op ∈ ops, Irc.canStore nm op = false) →
      (Irc.runCacheOps Irc.emptyCaches ops).usermapcache.lookup nm = none :=
    fun ops nm hall => Irc.runCacheOps_lookup_none nm ops Irc.emptyCaches rfl hall
  refine ⟨rfl, ?_, ?_, ?_, ?_⟩
  · intro u
    rw [Irc.get_user_by_name]
    cases h : s.usermapcache.lookup name with
    | some v => simp
    | none => simp
  · intro op h
    exact Irc.applyCacheOp_persists s op h
  · intro hall
    rw [Irc.get_user_by_name]
    rw [hlookup ops name hall]
  · intro hthread hhash hall
    rw [Irc.send_slack_message, if_neg hthread, if_neg hhash]
    rw [Irc.get_user_by_name]
    rw [hlookup ops dest hall]

/-- Witness for C10 at a concrete input: after a session that only
prefetched the user `al`, looking up the handle `bob` raises `KeyError`
and the PRIVMSG path answers ERR_NOSUCHNICK without sending. -/
theorem C10_get_user_by_name_cached_witness :
    (Irc.get_user_by_name
        (Irc.runCacheOps Irc.emptyCaches
          [Irc.CacheOp.prefetch [⟨['1'], ['a', 'l']⟩]])
        ['b', 'o', 'b']).1 = .error () ∧
    Irc.send_slack_message [] (fun _ => none)
        (Irc.runCacheOps Irc.emptyCaches
          [Irc.CacheOp.prefetch [⟨['1'], ['a', 'l']⟩]])
        ['b', 'o', 'b'] =
      ([.errNoSuchNick ['b', 'o', 'b']], .noSend) :=
  ⟨(C10_get_user_by_name_cached Irc.emptyCaches ['b', 'o', 'b']
      [Irc.CacheOp.prefetch [⟨['1'], ['a', 'l']⟩]] (fun _ => none) []
      ['b', 'o', 'b']).2.2.2.1 (by decide),
   (C10_get_user_by_name_cached Irc.emptyCaches ['b', 'o', 'b']
      [Irc.CacheOp.prefetch [⟨['1'], ['a', 'l']⟩]] (fun _ => none) []
      ['b', 'o', 'b']).2.2.2.2 (by decide) (by decide) (by decide)⟩
